import Mathlib

/-!
Verification of the conveyor-belt basket simulation (`src/basket.py`).

The Python source is shallowly embedded below.  Mutable objects are modelled
functionally: every basket lives in an id-indexed arena (`ConveyorSystem.baskets`)
and the containers (entry queue, station slots, waiting-zone queues, finished
list, active list) hold basket ids, which models Python's shared object
references.  Calls to `time.time()` are modelled by an explicit `now : Time`
parameter threaded into every operation that reads the clock; `Time` is `ℤ`
(the code uses real-valued wall-clock timestamps, of which the integers are an
exact submodel sufficient for every comparison the code performs).  The colored
log strings of the source are modelled one-to-one by the structured `Event`
type: each `self.log.append(...)` call site corresponds to exactly one
constructor.
-/

/-- Timestamps and durations (`time.time()` values and `processing_time`). -/
abbrev Time := ℤ

/-- One structured log entry.  Each constructor corresponds to exactly one
`self.log.append` call site in `src/basket.py`:
`sysInit` (line 136), `entry` (line 178), `done` (line 144), `err` (line 155),
`move` (line 160), `wait` (line 166), `halt` (line 171), `signal` (line 187),
`moveFromWaiting` (line 195). -/
inductive Event where
  | sysInit (n : ℕ)
  | entry (bid : ℕ)
  | done (bid : ℕ)
  | err (bid : ℕ) (target : String)
  | move (bid : ℕ) (station : String)
  | wait (bid : ℕ) (station : String)
  | halt (bid : ℕ) (station : String)
  | signal (station : String) (bid : ℕ)
  | moveFromWaiting (bid : ℕ) (station : String)
deriving DecidableEq, Repr

/-- `class Basket` (lines 31-53). -/
structure Basket where
  id : ℕ
  route : List String
  next_station_index : ℕ
  location : String
  completed_stations : List String
  start_time : Time
  finish_time : Option Time
deriving DecidableEq, Repr

/-- `Basket.__init__` (lines 32-39): `route` is copied in, the cursor starts
at 0, location is `"Entry Point"`, `start_time = time.time()`, no finish time. -/
def Basket.init (id : ℕ) (route : List String) (now : Time) : Basket :=
  { id := id, route := route, next_station_index := 0, location := "Entry Point",
    completed_stations := [], start_time := now, finish_time := none }

/-- `Basket.next_station` property (lines 41-43): `route[idx]` if the cursor is
in range, else `None`. -/
def Basket.next_station (b : Basket) : Option String :=
  if h : b.next_station_index < b.route.length then
    some (b.route.get ⟨b.next_station_index, h⟩)
  else
    none

/-- `Basket.update_route` (lines 45-49): append the current station to
`completed_stations` and advance the cursor, when the cursor is in range. -/
def Basket.update_route (b : Basket) : Basket :=
  if h : b.next_station_index < b.route.length then
    { b with
        completed_stations :=
          b.completed_stations ++ [b.route.get ⟨b.next_station_index, h⟩],
        next_station_index := b.next_station_index + 1 }
  else
    b

/-- `class Station` (lines 56-85).  `current_basket` holds the occupant's id. -/
structure Station where
  name : String
  current_basket : Option ℕ
  is_available : Bool
  processing_time : Time
  finish_time : Time
deriving DecidableEq, Repr

/-- `Station.__init__` (lines 57-62). -/
def Station.init (name : String) (processing_time : Time) : Station :=
  { name := name, current_basket := none, is_available := true,
    processing_time := processing_time, finish_time := 0 }

/-- `Station.load_basket` (lines 64-71): raises when the station is not
available; otherwise stores the basket, marks the station busy, stamps the
basket's location, and sets `finish_time = time.time() + processing_time`. -/
def Station.load_basket (st : Station) (b : Basket) (now : Time) :
    Except String (Station × Basket) :=
  if st.is_available then
    .ok ({ st with current_basket := some b.id, is_available := false,
                   finish_time := now + st.processing_time },
         { b with location := "In_Station_" ++ st.name })
  else
    .error ("Station " ++ st.name ++ " is not available!")

/-- `Station.finish_processing` (lines 73-81): when an occupant is present and
`time.time() >= finish_time`, advance the basket's route cursor, clear the
slot, mark the station available and stamp the basket's location; otherwise
return `None` and change nothing.  `occ` is the arena value of the occupant
(`self.current_basket` in the source); note the stale `finish_time` is *not*
reset on release. -/
def Station.finish_processing (st : Station) (occ : Option Basket) (now : Time) :
    Option (Station × Basket) :=
  match occ with
  | some b =>
      if now ≥ st.finish_time then
        some ({ st with current_basket := none, is_available := true },
              { b.update_route with location := "Out_of_Station_" ++ st.name })
      else
        none
  | none => none

/-- `class WaitingZone` (lines 88-110).  The queue holds basket ids. -/
structure WaitingZone where
  name : String
  queue : List ℕ
  capacity : ℕ
deriving DecidableEq, Repr

/-- `WaitingZone.__init__` (lines 89-92). -/
def WaitingZone.init (name : String) (capacity : ℕ) : WaitingZone :=
  { name := name, queue := [], capacity := capacity }

/-- `WaitingZone.add_basket` (lines 94-99): append and return `True` when
`len(queue) < capacity`, stamping the basket's location; otherwise return
`False` with nothing changed.  No exception is ever raised. -/
def WaitingZone.add_basket (wz : WaitingZone) (bid : ℕ) (b : Basket) :
    WaitingZone × Basket × Bool :=
  if wz.queue.length < wz.capacity then
    ({ wz with queue := wz.queue ++ [bid] }, { b with location := wz.name }, true)
  else
    (wz, b, false)

/-- `WaitingZone.get_next_basket` (lines 101-104): pop the oldest basket, or
return `None` when the queue is empty. -/
def WaitingZone.get_next_basket (wz : WaitingZone) : Option ℕ × WaitingZone :=
  match wz.queue with
  | [] => (none, wz)
  | x :: xs => (some x, { wz with queue := xs })

/-- `WaitingZone.is_full` (lines 106-107): `len(queue) >= capacity`. -/
def WaitingZone.is_full (wz : WaitingZone) : Bool :=
  decide (wz.capacity ≤ wz.queue.length)

/-- Association-list lookup, modelling Python `dict.get` /`dict.__getitem__`
over the insertion-ordered station and waiting-zone dictionaries. -/
def lookA {α β : Type} [DecidableEq α] : List (α × β) → α → Option β
  | [], _ => none
  | p :: r, k => if p.1 = k then some p.2 else lookA r k

/-- Association-list key update, modelling in-place mutation of a value stored
in a Python dict (the key set never changes after `__init__`). -/
def updA {α β : Type} [DecidableEq α] (l : List (α × β)) (k : α) (v : β) :
    List (α × β) :=
  l.map (fun p => if p.1 = k then (k, v) else p)

/-- `class ConveyorSystem` state (lines 114-129).  `baskets` is the id-indexed
arena of every `Basket` object ever created (Python heap objects); all other
collections store ids. -/
structure ConveyorSystem where
  station_names : List String
  stations : List (String × Station)
  waiting_zones : List (String × WaitingZone)
  entry_queue : List ℕ
  active_baskets : List ℕ
  finished_baskets : List ℕ
  log : List Event
  is_entry_halted : Bool
  baskets : List (ℕ × Basket)
deriving DecidableEq, Repr

/-- `ConveyorSystem.__init__` (lines 115-129): builds the stations and the
waiting zones (one per station, named `Waiting_<name>`) in configuration
order, with empty queues and no halt.  Note: the constructor performs *no*
validation of any kind (no route check, no capacity check, no id check). -/
def ConveyorSystem.init (station_details : List (String × Time))
    (waiting_capacity : ℕ) : ConveyorSystem :=
  { station_names := station_details.map Prod.fst,
    stations := station_details.map (fun p => (p.1, Station.init p.1 p.2)),
    waiting_zones := station_details.map
      (fun p => ("Waiting_" ++ p.1, WaitingZone.init ("Waiting_" ++ p.1) waiting_capacity)),
    entry_queue := [], active_baskets := [], finished_baskets := [],
    log := [], is_entry_halted := false, baskets := [] }

/-- `ConveyorSystem.initialize_baskets` (lines 131-136): create each basket,
append it to the entry queue and to `active_baskets`, then log the summary
line.  Again no validation happens (duplicate ids and unknown route names are
accepted silently). -/
def initialize_baskets (s : ConveyorSystem)
    (baskets_data : List (ℕ × List String)) (now : Time) : ConveyorSystem :=
  let s := baskets_data.foldl
    (fun s p =>
      let b := Basket.init p.1 p.2 now
      { s with entry_queue := s.entry_queue ++ [p.1],
               active_baskets := s.active_baskets ++ [p.1],
               baskets := s.baskets ++ [(p.1, b)] }) s
  { s with log := s.log ++ [Event.sysInit s.active_baskets.length] }

/-- `ConveyorSystem.detect_and_manage_collision` (lines 138-172), the routing
decision.  Returns the new system state together with the outcome string the
source returns ("Finished" / "Error" / "Loaded" / "Waiting" / "Halted").
The first `match` resolves the Python object reference `basket` through the
arena; the `none` case is unreachable for ids tracked by the system (every
container only holds ids of baskets created in `initialize_baskets`).
In the `Halted` branch note that the basket is *not* inserted anywhere: the
source only sets the flag and logs. -/
def detect_and_manage_collision (s : ConveyorSystem) (bid : ℕ) (now : Time) :
    ConveyorSystem × String :=
  match lookA s.baskets bid with
  | none => (s, "Error")
  | some b =>
    match b.next_station with
    | none =>
        -- lines 141-149: basket has completed all its routes
        let b' := { b with finish_time := some now }
        ({ s with baskets := updA s.baskets bid b',
                  log := s.log ++ [Event.done bid],
                  active_baskets := s.active_baskets.erase bid,
                  finished_baskets := s.finished_baskets ++ [bid] },
         "Finished")
    | some target =>
      match lookA s.stations target,
            lookA s.waiting_zones ("Waiting_" ++ target) with
      | some st, some wz =>
          if st.is_available then
            -- lines 158-162
            match st.load_basket b now with
            | .ok (st', b') =>
                ({ s with stations := updA s.stations target st',
                          baskets := updA s.baskets bid b',
                          log := s.log ++ [Event.move bid target],
                          is_entry_halted := false },
                 "Loaded")
            | .error _ => (s, "Error")  -- unreachable: the station is available
          else if wz.is_full then
            -- lines 169-172
            ({ s with is_entry_halted := true,
                      log := s.log ++ [Event.halt bid target] },
             "Halted")
          else
            -- lines 164-168
            let r := wz.add_basket bid b
            ({ s with waiting_zones :=
                        updA s.waiting_zones ("Waiting_" ++ target) r.1,
                      baskets := updA s.baskets bid r.2.1,
                      log := s.log ++ [Event.wait bid target],
                      is_entry_halted := false },
             "Waiting")
      | _, _ =>
          -- lines 154-156: target station name is not configured
          ({ s with log := s.log ++ [Event.err bid target] }, "Error")

/-- Step 1 of `simulate_tick` (lines 175-179): if the entry queue is non-empty
and entry is not halted, pop the front basket, log the entry event and run the
routing decision, discarding its outcome (a `Halted` basket is therefore
dropped from every container). -/
def entryPhase (s : ConveyorSystem) (now : Time) : ConveyorSystem :=
  match s.entry_queue with
  | [] => s
  | bid :: rest =>
      if s.is_entry_halted then s
      else
        let s1 := { s with entry_queue := rest, log := s.log ++ [Event.entry bid] }
        (detect_and_manage_collision s1 bid now).1

/-- Step 2 of `simulate_tick` for one station (lines 183-195): try to release
the occupant; on release log the signal, record the released id, and
immediately pull the front of the station's waiting zone into the freed slot.
The `lookA … | none` fallbacks are unreachable for systems built by
`ConveyorSystem.init` (`station_names` are exactly the keys of both maps and
every stored id is in the arena). -/
def stationStep (now : Time) (acc : ConveyorSystem × List ℕ) (name : String) :
    ConveyorSystem × List ℕ :=
  let s := acc.1
  let released := acc.2
  match lookA s.stations name with
  | none => (s, released)
  | some station =>
    match station.current_basket with
    | none => (s, released)
    | some bid =>
      match lookA s.baskets bid with
      | none => (s, released)
      | some b =>
        match station.finish_processing (some b) now with
        | none => (s, released)
        | some (st', b') =>
          let s := { s with stations := updA s.stations name st',
                            baskets := updA s.baskets bid b',
                            log := s.log ++ [Event.signal name bid] }
          let released := released ++ [bid]
          match lookA s.waiting_zones ("Waiting_" ++ name) with
          | none => (s, released)
          | some wz =>
            match wz.get_next_basket with
            | (none, _) => (s, released)
            | (some nid, wz') =>
              match lookA s.baskets nid with
              | none => (s, released)
              | some nb =>
                match st'.load_basket nb now with
                | .error _ => (s, released)  -- unreachable: the slot was just freed
                | .ok (st'', nb') =>
                    ({ s with stations := updA s.stations name st'',
                              waiting_zones := updA s.waiting_zones ("Waiting_" ++ name) wz',
                              baskets := updA s.baskets nid nb',
                              log := s.log ++ [Event.moveFromWaiting nid name] },
                     released)

/-- `ConveyorSystem.simulate_tick` (lines 174-199): entry admission, then the
stations in the fixed `station_names` order (collecting every basket released
this tick), then the routing decision for each collected basket in that same
order.  `now` models the value of `time.time()` during this call. -/
def simulate_tick (s : ConveyorSystem) (now : Time) : ConveyorSystem :=
  let s1 := entryPhase s now
  let r := s1.station_names.foldl (stationStep now) (s1, [])
  r.2.foldl (fun s bid => (detect_and_manage_collision s bid now).1) r.1

/-- Run `simulate_tick` once per element of `ts`; `ts` is the sequence of
wall-clock instants at which the host happens to execute the successive
iterations of `run_simulation`'s loop (lines 297-311). -/
def runTicks (s : ConveyorSystem) (ts : List Time) : ConveyorSystem :=
  ts.foldl simulate_tick s

/-- The ids of all baskets ever created (arena keys). -/
def keysOf (s : ConveyorSystem) : List ℕ := s.baskets.map Prod.fst

/-- The ids currently occupying station slots, in station-map order. -/
def occIds (l : List (String × Station)) : List ℕ :=
  l.filterMap (fun p => p.2.current_basket)

/-- The ids currently queued in waiting zones, in zone-map order. -/
def zoneIds (l : List (String × WaitingZone)) : List ℕ :=
  l.flatMap (fun p => p.2.queue)

/-- Every id currently held by some placement container: the entry queue, a
station slot, or a waiting-zone queue. -/
def placedIds (s : ConveyorSystem) : List ℕ :=
  s.entry_queue ++ occIds s.stations ++ zoneIds s.waiting_zones

/-- The in-flight baskets: tracked as active but no longer waiting at entry. -/
def inFlight (s : ConveyorSystem) : List ℕ :=
  s.active_baskets.filter (fun bid => decide (bid ∉ s.entry_queue))

/-- Conservation, as the spec states it: entry queue + in-flight + completed
add up, with multiplicity, to all items ever created. -/
def conservationHolds (s : ConveyorSystem) : Prop :=
  (s.entry_queue : Multiset ℕ) + (inFlight s : Multiset ℕ)
      + (s.finished_baskets : Multiset ℕ)
    = (keysOf s : Multiset ℕ)

/-- A `Decidable` instance so conservation can be checked on concrete states. -/
instance (s : ConveyorSystem) : Decidable (conservationHolds s) := by
  unfold conservationHolds
  infer_instance

/-- C10: reading `next_station` when the cursor equals the route length returns
`None` (no out-of-bounds access), so an item that has finished its route can be
queried safely. -/
theorem next_station_at_route_end (b : Basket)
    (h : b.next_station_index = b.route.length) : b.next_station = none := by
  have hlt : ¬ (b.next_station_index < b.route.length) := by omega
  simp [Basket.next_station, hlt]

theorem next_station_at_route_end_witness :
    (Basket.mk 4 ["A"] 1 "Out_of_Station_A" ["A"] 0 none).next_station = none :=
  next_station_at_route_end _ (by decide)

/-- C8: `load_basket` raises exactly when the station is occupied (under the
reachable-state link `is_available ↔ no occupant`, which the code tests via
`is_available`), and on success stores the occupant, marks the station busy,
sets `finish_time = now + processing_time`, and stamps the basket's location
as in-station. -/
theorem load_basket_raises_iff (st : Station) (b : Basket) (now : Time)
    (hlink : st.is_available = true ↔ st.current_basket = none) :
    ((∃ e, st.load_basket b now = .error e) ↔ st.current_basket ≠ none) ∧
    (st.current_basket = none →
      st.load_basket b now =
        .ok ({ st with current_basket := some b.id, is_available := false,
                       finish_time := now + st.processing_time },
             { b with location := "In_Station_" ++ st.name })) := by
  rcases hav : st.is_available with _ | _
  · have hocc : st.current_basket ≠ none := by
      intro hc
      exact absurd (hlink.mpr hc) (by simp [hav])
    constructor
    · simp only [Station.load_basket, hav, if_neg Bool.false_ne_true]
      simpa using hocc
    · intro hc
      exact absurd hc (by simpa using hocc)
  · have hocc : st.current_basket = none := hlink.mp hav
    constructor
    · simp [Station.load_basket, hav, hocc]
    · intro _
      simp [Station.load_basket, hav]

theorem load_basket_raises_iff_witness :
    ((∃ e, (Station.init "A" 2).load_basket (Basket.init 1 ["A"] 0) 0 = .error e)
        ↔ (Station.init "A" 2).current_basket ≠ none) ∧
    ((Station.init "A" 2).current_basket = none →
      (Station.init "A" 2).load_basket (Basket.init 1 ["A"] 0) 0 =
        .ok ({ Station.init "A" 2 with current_basket := some (Basket.init 1 ["A"] 0).id,
                                       is_available := false,
                                       finish_time := 0 + (Station.init "A" 2).processing_time },
             { Basket.init 1 ["A"] 0 with location := "In_Station_" ++ (Station.init "A" 2).name })) :=
  load_basket_raises_iff (Station.init "A" 2) (Basket.init 1 ["A"] 0) 0 (by decide)

/-- The station obtained by loading basket 7 into a fresh station `A` with
service duration 1 at wall-clock instant 0 (its deadline is therefore 1). -/
def stationLoadedAt0 : Station × Basket :=
  match (Station.init "A" 1).load_basket (Basket.init 7 ["A"] 0) 0 with
  | .ok r => r
  | .error _ => (Station.init "A" 1, Basket.init 7 ["A"] 0)

/-- The same station after `finish_processing` first runs at instant 5. -/
def stationReleasedAt5 : Station × Basket :=
  match stationLoadedAt0.1.finish_processing (some stationLoadedAt0.2) 5 with
  | some r => r
  | none => stationLoadedAt0

/-- C7 counterexample: after loading at instant 0 with duration 1, at the next
wall-clock instant 5 the occupant is still present while the deadline (1) lies
strictly in the past, refuting `occupant non-empty ⟺ deadline at-or-after the
current time`; moreover releasing clears the occupant but does *not* clear the
deadline field (it keeps the stale value 1). -/
theorem station_invariant_cex :
    stationLoadedAt0.1.current_basket = some 7 ∧
    stationLoadedAt0.1.finish_time = 1 ∧
    ¬ ((5 : Time) ≤ stationLoadedAt0.1.finish_time) ∧
    stationReleasedAt5.1.current_basket = none ∧
    stationReleasedAt5.1.is_available = true ∧
    stationReleasedAt5.1.finish_time = 1 := by decide

/-- C7 (amended): loading an empty station succeeds, fills the occupant, marks
it unavailable and sets the deadline to `now + processing_time`; a release
attempt before the deadline, or with no occupant, returns nothing (and hence
changes nothing); a release at or after the deadline clears the occupant and
the busy flag but leaves the deadline field unchanged; every operation
preserves `occupant non-empty ⟺ station unavailable` (the deadline itself may
lie strictly in the past while the occupant is still present). -/
theorem station_ops_amended (st : Station) (b : Basket) (occ : Option Basket)
    (now : Time) (hlink : st.is_available = true ↔ st.current_basket = none) :
    (st.current_basket = none →
      ∃ st' b', st.load_basket b now = .ok (st', b') ∧
        st'.current_basket = some b.id ∧ st'.is_available = false ∧
        st'.finish_time = now + st.processing_time ∧
        (st'.is_available = true ↔ st'.current_basket = none)) ∧
    (now < st.finish_time → st.finish_processing occ now = none) ∧
    (st.finish_processing none now = none) ∧
    (∀ bk, occ = some bk → st.finish_time ≤ now →
      ∃ st' b', st.finish_processing occ now = some (st', b') ∧
        st'.current_basket = none ∧ st'.is_available = true ∧
        st'.finish_time = st.finish_time ∧
        (st'.is_available = true ↔ st'.current_basket = none)) := by
  refine ⟨?_, ?_, ?_, ?_⟩
  · intro hocc
    have hav : st.is_available = true := hlink.mpr hocc
    refine ⟨{ st with current_basket := some b.id, is_available := false,
                      finish_time := now + st.processing_time },
            { b with location := "In_Station_" ++ st.name },
            ?_, rfl, rfl, rfl, by simp⟩
    simp [Station.load_basket, hav]
  · intro hlt
    rcases occ with _ | bk
    · simp [Station.finish_processing]
    · simp only [Station.finish_processing]
      have hcond : ¬ (now ≥ st.finish_time) := not_le.mpr hlt
      rw [if_neg hcond]
  · simp [Station.finish_processing]
  · intro bk hocc hge
    subst hocc
    refine ⟨{ st with current_basket := none, is_available := true },
            { bk.update_route with location := "Out_of_Station_" ++ st.name },
            ?_, rfl, rfl, rfl, by simp⟩
    simp only [Station.finish_processing]
    rw [if_pos hge]

theorem station_ops_amended_witness :
    ((Station.init "B" 3).current_basket = none →
      ∃ st' b', (Station.init "B" 3).load_basket (Basket.init 2 ["B"] 0) 4 = .ok (st', b') ∧
        st'.current_basket = some (Basket.init 2 ["B"] 0).id ∧ st'.is_available = false ∧
        st'.finish_time = 4 + (Station.init "B" 3).processing_time ∧
        (st'.is_available = true ↔ st'.current_basket = none)) ∧
    ((4 : Time) < (Station.init "B" 3).finish_time →
      (Station.init "B" 3).finish_processing (some (Basket.init 2 ["B"] 0)) 4 = none) ∧
    ((Station.init "B" 3).finish_processing none 4 = none) ∧
    (∀ bk, (some (Basket.init 2 ["B"] 0) : Option Basket) = some bk →
      (Station.init "B" 3).finish_time ≤ 4 →
      ∃ st' b', (Station.init "B" 3).finish_processing (some (Basket.init 2 ["B"] 0)) 4 = some (st', b') ∧
        st'.current_basket = none ∧ st'.is_available = true ∧
        st'.finish_time = (Station.init "B" 3).finish_time ∧
        (st'.is_available = true ↔ st'.current_basket = none)) :=
  station_ops_amended (Station.init "B" 3) (Basket.init 2 ["B"] 0)
    (some (Basket.init 2 ["B"] 0)) 4 (by decide)

/-- C6: the constructor and `initialize_baskets` perform no validation at all.
A route naming the unconfigured station `"Z"` is accepted and seeded; a buffer
capacity of 0 (the `ℕ` image of Python `<= 0`) is accepted; duplicate item
ids are accepted.  Each invalid configuration yields a fully built system
instead of the fatal initialization error the specification requires. -/
theorem init_accepts_invalid_configs :
    (initialize_baskets (ConveyorSystem.init [("A", 1)] 1) [(1, ["Z"])] 0).entry_queue = [1] ∧
    (initialize_baskets (ConveyorSystem.init [("A", 1)] 1) [(1, ["Z"])] 0).station_names = ["A"] ∧
    (lookA (initialize_baskets (ConveyorSystem.init [("A", 1)] 0) [(2, ["A"])] 0).waiting_zones
        "Waiting_A").map WaitingZone.capacity = some 0 ∧
    (initialize_baskets (ConveyorSystem.init [("A", 1)] 1) [(3, ["A"]), (3, ["A"])] 0).entry_queue
      = [3, 3] := by decide

/-- Configuration for the halt-loss run: one station `A` with service duration
100, buffer capacity 1, three baskets all routed to `A`, created at instant 0. -/
def haltScenario : ConveyorSystem :=
  initialize_baskets (ConveyorSystem.init [("A", 100)] 1)
    [(1, ["A"]), (2, ["A"]), (3, ["A"])] 0

/-- C1: in the halt scenario, after three ticks basket 3 receives the Halted
outcome (the halt event is in the log), yet it is in *no* container: not in the
entry queue (it was popped and never pushed back), not in any station slot or
waiting zone, and not finished — it survives only in the `active_baskets`
bookkeeping list.  This contradicts the required return-to-front-of-entry
behaviour: the item is absent from every container. -/
theorem halted_basket_lost :
    Event.halt 3 "A" ∈ (runTicks haltScenario [0, 1, 2]).log ∧
    (runTicks haltScenario [0, 1, 2]).entry_queue = [] ∧
    3 ∉ placedIds (runTicks haltScenario [0, 1, 2]) ∧
    3 ∉ (runTicks haltScenario [0, 1, 2]).finished_baskets ∧
    3 ∈ (runTicks haltScenario [0, 1, 2]).active_baskets := by decide

/-- Configuration for the timing run: one station `A` with service duration 2,
buffer capacity 1, two baskets routed to `A`. -/
def clockScenario : ConveyorSystem :=
  initialize_baskets (ConveyorSystem.init [("A", 2)] 1) [(1, ["A"]), (2, ["A"])] 0

/-- C3: the release check compares wall-clock time (`time.time()`), not a
logical tick counter.  Two three-tick runs from the identical initial
configuration, differing only in the wall-clock instants at which the host
happens to execute the ticks (a fast host at instants 0,1,2 versus a slow host
at instants 0,10,20), produce different event logs — the simulation is *not*
reproducible independently of execution speed. -/
theorem wall_clock_dependence :
    (runTicks clockScenario [0, 1, 2]).log ≠ (runTicks clockScenario [0, 10, 20]).log := by
  decide

/-- Configuration for the intra-tick ordering run: stations `A` then `B`
(duration 1 each), capacity 1, basket 1 routed to `A`, basket 2 to `B`. -/
def orderScenario : ConveyorSystem :=
  initialize_baskets (ConveyorSystem.init [("A", 1), ("B", 1)] 1)
    [(1, ["A"]), (2, ["B"])] 0

/-- C4 counterexample: station `A` precedes station `B` in configuration
order, and in the third tick both release their baskets.  The full log shows
basket 1 (released from `A`) is routed (`done 1`) only *after* station `B`'s
release is processed (`signal "B" 2`), not before: the index of its routing
event is not smaller.  Releases of all stations happen first; routing of the
released items happens afterwards. -/
theorem routing_order_cex :
    orderScenario.station_names = ["A", "B"] ∧
    (runTicks orderScenario [0, 0, 2]).log =
      [Event.sysInit 2, Event.entry 1, Event.move 1 "A", Event.entry 2,
       Event.move 2 "B", Event.signal "A" 1, Event.signal "B" 2,
       Event.done 1, Event.done 2] ∧
    ¬ ((runTicks orderScenario [0, 0, 2]).log.indexOf (Event.done 1)
        < (runTicks orderScenario [0, 0, 2]).log.indexOf (Event.signal "B" 2)) := by
  decide

/-! ### Association-list lemmas

Infrastructure for reasoning about the Python-dict model (`lookA` / `updA`). -/

theorem lookA_mem {α β : Type} [DecidableEq α] {l : List (α × β)} {k : α} {v : β}
    (h : lookA l k = some v) : (k, v) ∈ l := by
  induction l with
  | nil => simp [lookA] at h
  | cons p r ih =>
    by_cases hk : p.1 = k
    · have hv : p.2 = v := by
        simpa [lookA, hk] using h
      have hp : p = (k, v) := by
        obtain ⟨p1, p2⟩ := p
        simp_all
      exact hp ▸ List.mem_cons_self p r
    · have h' : lookA r k = some v := by
        simpa [lookA, hk] using h
      exact List.mem_cons_of_mem _ (ih h')

theorem lookA_updA_ne {α β : Type} [DecidableEq α] {l : List (α × β)} {k j : α}
    (v : β) (h : j ≠ k) : lookA (updA l k v) j = lookA l j := by
  induction l with
  | nil => rfl
  | cons p r ih =>
    show lookA ((if p.1 = k then (k, v) else p) :: updA r k v) j = lookA (p :: r) j
    by_cases hpk : p.1 = k
    · have h1 : ¬ ((k, v).1 = j) := fun hc => h (hc.symm)
      have h2 : ¬ (p.1 = j) := fun hc => h (hc ▸ hpk)
      rw [if_pos hpk]
      simp only [lookA, if_neg h1, if_neg h2]
      exact ih
    · rw [if_neg hpk]
      simp only [lookA]
      by_cases hpj : p.1 = j
      · rw [if_pos hpj, if_pos hpj]
      · rw [if_neg hpj, if_neg hpj]
        exact ih

theorem updA_of_no_key {α β : Type} [DecidableEq α] {l : List (α × β)} {k : α}
    (v : β) (h : ∀ p ∈ l, p.1 ≠ k) : updA l k v = l := by
  unfold updA
  rw [List.map_congr_left, List.map_id]
  intro p hp
  simp [h p hp]

theorem mapFst_updA {α β : Type} [DecidableEq α] (l : List (α × β)) (k : α) (v : β) :
    (updA l k v).map Prod.fst = l.map Prod.fst := by
  unfold updA
  rw [List.map_map]
  apply List.map_congr_left
  intro p _
  by_cases h : p.1 = k <;> simp [h]

theorem mem_updA {α β : Type} [DecidableEq α] {l : List (α × β)} {k : α} {v : β}
    {q : α × β} (h : q ∈ updA l k v) : q ∈ l ∨ q = (k, v) := by
  unfold updA at h
  obtain ⟨p, hp, hq⟩ := List.mem_map.mp h
  by_cases hk : p.1 = k
  · right
    rw [if_pos hk] at hq
    exact hq.symm
  · left
    rw [if_neg hk] at hq
    exact hq ▸ hp

theorem lookA_some_split {α β : Type} [DecidableEq α] {l : List (α × β)} {k : α}
    {v : β} (hnd : (l.map Prod.fst).Nodup) (h : lookA l k = some v) :
    ∃ l1 l2, l = l1 ++ (k, v) :: l2 ∧ (∀ p ∈ l1, p.1 ≠ k) ∧ (∀ p ∈ l2, p.1 ≠ k) ∧
      ∀ v', updA l k v' = l1 ++ (k, v') :: l2 := by
  induction l with
  | nil => simp [lookA] at h
  | cons p r ih =>
    rw [List.map_cons, List.nodup_cons] at hnd
    by_cases hk : p.1 = k
    · have hv : p.2 = v := by
        simpa [lookA, hk] using h
      have hp : p = (k, v) := by
        obtain ⟨p1, p2⟩ := p
        simp_all
      have hr : ∀ q ∈ r, q.1 ≠ k := by
        intro q hq hqk
        exact hnd.1 (hk ▸ hqk ▸ List.mem_map_of_mem Prod.fst hq)
      refine ⟨[], r, by simp [hp], by simp, hr, ?_⟩
      intro v'
      have hid : updA r k v' = r := updA_of_no_key v' hr
      unfold updA
      rw [List.map_cons, if_pos hk]
      unfold updA at hid
      rw [hid]
      simp
    · have h' : lookA r k = some v := by
        simpa [lookA, hk] using h
      obtain ⟨l1, l2, heq, h1, h2, hupd⟩ := ih hnd.2 h'
      refine ⟨p :: l1, l2, by simp [heq], ?_, h2, ?_⟩
      · intro q hq
        rcases List.mem_cons.mp hq with hq | hq
        · exact hq ▸ hk
        · exact h1 q hq
      · intro v'
        unfold updA
        rw [List.map_cons, if_neg hk]
        have := hupd v'
        unfold updA at this
        rw [this]
        simp

theorem occIds_split (S1 S2 : List (String × Station)) (n : String) (st : Station) :
    occIds (S1 ++ (n, st) :: S2)
      = occIds S1 ++ st.current_basket.toList ++ occIds S2 := by
  rcases h : st.current_basket with _ | b <;>
    simp [occIds, List.filterMap_append, List.filterMap_cons, Option.toList, h]

theorem zoneIds_split (Z1 Z2 : List (String × WaitingZone)) (n : String)
    (wz : WaitingZone) :
    zoneIds (Z1 ++ (n, wz) :: Z2) = zoneIds Z1 ++ wz.queue ++ zoneIds Z2 := by
  simp [zoneIds, List.flatMap_append, List.flatMap_cons, List.append_assoc]

/-! ### Branch equations for the routing decision -/

theorem detect_eq_missing {s : ConveyorSystem} {bid : ℕ} {now : Time}
    (hb : lookA s.baskets bid = none) :
    detect_and_manage_collision s bid now = (s, "Error") := by
  unfold detect_and_manage_collision
  simp only [hb]

theorem detect_eq_finished {s : ConveyorSystem} {bid : ℕ} {now : Time} {b : Basket}
    (hb : lookA s.baskets bid = some b) (hns : b.next_station = none) :
    detect_and_manage_collision s bid now =
      ({ s with baskets := updA s.baskets bid { b with finish_time := some now },
                log := s.log ++ [Event.done bid],
                active_baskets := s.active_baskets.erase bid,
                finished_baskets := s.finished_baskets ++ [bid] }, "Finished") := by
  unfold detect_and_manage_collision
  simp only [hb, hns]

theorem detect_eq_err_station {s : ConveyorSystem} {bid : ℕ} {now : Time}
    {b : Basket} {target : String}
    (hb : lookA s.baskets bid = some b) (hns : b.next_station = some target)
    (hstl : lookA s.stations target = none) :
    detect_and_manage_collision s bid now =
      ({ s with log := s.log ++ [Event.err bid target] }, "Error") := by
  unfold detect_and_manage_collision
  rcases hwzl : lookA s.waiting_zones ("Waiting_" ++ target) with _ | wz <;>
    simp only [hb, hns, hstl, hwzl]

theorem detect_eq_err_zone {s : ConveyorSystem} {bid : ℕ} {now : Time}
    {b : Basket} {target : String} {st : Station}
    (hb : lookA s.baskets bid = some b) (hns : b.next_station = some target)
    (hstl : lookA s.stations target = some st)
    (hwzl : lookA s.waiting_zones ("Waiting_" ++ target) = none) :
    detect_and_manage_collision s bid now =
      ({ s with log := s.log ++ [Event.err bid target] }, "Error") := by
  unfold detect_and_manage_collision
  simp only [hb, hns, hstl, hwzl]

theorem detect_eq_loaded {s : ConveyorSystem} {bid : ℕ} {now : Time}
    {b : Basket} {target : String} {st : Station} {wz : WaitingZone}
    (hb : lookA s.baskets bid = some b) (hns : b.next_station = some target)
    (hstl : lookA s.stations target = some st)
    (hwzl : lookA s.waiting_zones ("Waiting_" ++ target) = some wz)
    (hav : st.is_available = true) :
    detect_and_manage_collision s bid now =
      ({ s with
           stations := updA s.stations target
             { st with current_basket := some b.id, is_available := false,
                       finish_time := now + st.processing_time },
           baskets := updA s.baskets bid { b with location := "In_Station_" ++ st.name },
           log := s.log ++ [Event.move bid target],
           is_entry_halted := false }, "Loaded") := by
  unfold detect_and_manage_collision
  simp only [hb, hns, hstl, hwzl, hav, if_true, Station.load_basket]

theorem detect_eq_halted {s : ConveyorSystem} {bid : ℕ} {now : Time}
    {b : Basket} {target : String} {st : Station} {wz : WaitingZone}
    (hb : lookA s.baskets bid = some b) (hns : b.next_station = some target)
    (hstl : lookA s.stations target = some st)
    (hwzl : lookA s.waiting_zones ("Waiting_" ++ target) = some wz)
    (hav : st.is_available = false) (hfull : wz.is_full = true) :
    detect_and_manage_collision s bid now =
      ({ s with is_entry_halted := true,
                log := s.log ++ [Event.halt bid target] }, "Halted") := by
  unfold detect_and_manage_collision
  simp only [hb, hns, hstl, hwzl, hav, Bool.false_eq_true, if_false, hfull, if_true]

theorem detect_eq_waiting {s : ConveyorSystem} {bid : ℕ} {now : Time}
    {b : Basket} {target : String} {st : Station} {wz : WaitingZone}
    (hb : lookA s.baskets bid = some b) (hns : b.next_station = some target)
    (hstl : lookA s.stations target = some st)
    (hwzl : lookA s.waiting_zones ("Waiting_" ++ target) = some wz)
    (hav : st.is_available = false) (hfull : wz.is_full = false) :
    detect_and_manage_collision s bid now =
      ({ s with
           waiting_zones := updA s.waiting_zones ("Waiting_" ++ target)
             { wz with queue := wz.queue ++ [bid] },
           baskets := updA s.baskets bid { b with location := wz.name },
           log := s.log ++ [Event.wait bid target],
           is_entry_halted := false }, "Waiting") := by
  unfold detect_and_manage_collision
  have hlt : wz.queue.length < wz.capacity := by
    simpa [WaitingZone.is_full] using hfull
  simp only [hb, hns, hstl, hwzl, hav, Bool.false_eq_true, if_false, hfull,
    WaitingZone.add_basket, if_pos hlt]

/-- The arena is consistent: every stored basket's `id` field is its key.
This holds for systems built by `initialize_baskets` and is preserved by every
operation (none of them changes a basket's `id`). -/
def ArenaIds (s : ConveyorSystem) : Prop := ∀ p ∈ s.baskets, p.2.id = p.1

instance (s : ConveyorSystem) : Decidable (ArenaIds s) := by
  unfold ArenaIds
  infer_instance

/-- Structural fields that the routing decision never changes. -/
theorem detect_shape (s : ConveyorSystem) (bid : ℕ) (now : Time) :
    (detect_and_manage_collision s bid now).1.station_names = s.station_names ∧
    (detect_and_manage_collision s bid now).1.entry_queue = s.entry_queue ∧
    keysOf (detect_and_manage_collision s bid now).1 = keysOf s ∧
    (detect_and_manage_collision s bid now).1.stations.map Prod.fst
      = s.stations.map Prod.fst ∧
    (detect_and_manage_collision s bid now).1.waiting_zones.map Prod.fst
      = s.waiting_zones.map Prod.fst := by
  rcases hb : lookA s.baskets bid with _ | b
  · rw [detect_eq_missing hb]
    exact ⟨rfl, rfl, rfl, rfl, rfl⟩
  · rcases hns : b.next_station with _ | target
    · rw [detect_eq_finished hb hns]
      exact ⟨rfl, rfl, by simp [keysOf, mapFst_updA], rfl, rfl⟩
    · rcases hstl : lookA s.stations target with _ | st
      · rw [detect_eq_err_station hb hns hstl]
        exact ⟨rfl, rfl, rfl, rfl, rfl⟩
      · rcases hwzl : lookA s.waiting_zones ("Waiting_" ++ target) with _ | wz
        · rw [detect_eq_err_zone hb hns hstl hwzl]
          exact ⟨rfl, rfl, rfl, rfl, rfl⟩
        · rcases hav : st.is_available with _ | _
          · rcases hfull : wz.is_full with _ | _
            · rw [detect_eq_waiting hb hns hstl hwzl hav hfull]
              exact ⟨rfl, rfl, by simp [keysOf, mapFst_updA], rfl,
                     by simp [mapFst_updA]⟩
            · rw [detect_eq_halted hb hns hstl hwzl hav hfull]
              exact ⟨rfl, rfl, rfl, rfl, rfl⟩
          · rw [detect_eq_loaded hb hns hstl hwzl hav]
            exact ⟨rfl, rfl, by simp [keysOf, mapFst_updA],
                   by simp [mapFst_updA], rfl⟩

/-- Effect of the routing decision on every basket other than the routed one:
its placement count can only shrink, its active/finished membership and its
arena entry are untouched. -/
theorem detect_effects (s : ConveyorSystem) (bid : ℕ) (now : Time)
    (hst : (s.stations.map Prod.fst).Nodup)
    (hwz : (s.waiting_zones.map Prod.fst).Nodup)
    (hids : ArenaIds s) (j : ℕ) (hj : j ≠ bid) :
    (placedIds (detect_and_manage_collision s bid now).1).count j
        ≤ (placedIds s).count j ∧
    (detect_and_manage_collision s bid now).1.active_baskets.count j
        = s.active_baskets.count j ∧
    (detect_and_manage_collision s bid now).1.finished_baskets.count j
        = s.finished_baskets.count j ∧
    lookA (detect_and_manage_collision s bid now).1.baskets j
        = lookA s.baskets j := by
  have hj' : bid ≠ j := Ne.symm hj
  rcases hb : lookA s.baskets bid with _ | b
  · rw [detect_eq_missing hb]
    exact ⟨Nat.le_refl _, rfl, rfl, rfl⟩
  · have hb_id : b.id = bid := hids _ (lookA_mem hb)
    rcases hns : b.next_station with _ | target
    · rw [detect_eq_finished hb hns]
      refine ⟨Nat.le_refl _, ?_, ?_, lookA_updA_ne _ hj⟩
      · exact List.count_erase_of_ne hj _
      · simp [List.count_append, List.count_cons, hj']
    · rcases hstl : lookA s.stations target with _ | st
      · rw [detect_eq_err_station hb hns hstl]
        exact ⟨Nat.le_refl _, rfl, rfl, rfl⟩
      · rcases hwzl : lookA s.waiting_zones ("Waiting_" ++ target) with _ | wz
        · rw [detect_eq_err_zone hb hns hstl hwzl]
          exact ⟨Nat.le_refl _, rfl, rfl, rfl⟩
        · rcases hav : st.is_available with _ | _
          · rcases hfull : wz.is_full with _ | _
            · rw [detect_eq_waiting hb hns hstl hwzl hav hfull]
              obtain ⟨Z1, Z2, heq, _, _, hupd⟩ := lookA_some_split hwz hwzl
              refine ⟨?_, rfl, rfl, lookA_updA_ne _ hj⟩
              have h1 : placedIds s
                  = s.entry_queue ++ occIds s.stations
                      ++ zoneIds (Z1 ++ ("Waiting_" ++ target, wz) :: Z2) := by
                simp only [placedIds]
                rw [← heq]
              rw [h1]
              simp only [placedIds, hupd, zoneIds_split, List.count_append]
              simp [List.count_append, List.count_cons, hj']
            · rw [detect_eq_halted hb hns hstl hwzl hav hfull]
              exact ⟨Nat.le_refl _, rfl, rfl, rfl⟩
          · rw [detect_eq_loaded hb hns hstl hwzl hav]
            obtain ⟨S1, S2, heq, _, _, hupd⟩ := lookA_some_split hst hstl
            refine ⟨?_, rfl, rfl, lookA_updA_ne _ hj⟩
            have h1 : placedIds s
                = s.entry_queue ++ occIds (S1 ++ (target, st) :: S2)
                    ++ zoneIds s.waiting_zones := by
              simp only [placedIds]
              rw [← heq]
            rw [h1]
            simp only [placedIds, hupd, occIds_split, List.count_append]
            have hz : (Option.toList (some b.id)).count j = 0 := by
              simp [hb_id, List.count_cons, hj']
            simp only [hz]
            omega

theorem updA_append_cons {α β : Type} [DecidableEq α] {S1 S2 : List (α × β)}
    {k : α} {v : β} (h1 : ∀ p ∈ S1, p.1 ≠ k) (h2 : ∀ p ∈ S2, p.1 ≠ k) (v' : β) :
    updA (S1 ++ (k, v) :: S2) k v' = S1 ++ (k, v') :: S2 := by
  have e1 : updA S1 k v' = S1 := updA_of_no_key v' h1
  have e2 : updA S2 k v' = S2 := updA_of_no_key v' h2
  unfold updA at e1 e2 ⊢
  simp only [List.map_append, List.map_cons, if_pos rfl, if_true, e1, e2]

theorem update_route_id (b : Basket) : b.update_route.id = b.id := by
  unfold Basket.update_route
  split <;> rfl

/-! ### Branch equations for one station-service step -/

theorem stationStep_eq_noStation {s : ConveyorSystem} {R : List ℕ} {now : Time}
    {name : String} (hstl : lookA s.stations name = none) :
    stationStep now (s, R) name = (s, R) := by
  unfold stationStep
  simp only [hstl]

theorem stationStep_eq_idle {s : ConveyorSystem} {R : List ℕ} {now : Time}
    {name : String} {station : Station}
    (hstl : lookA s.stations name = some station)
    (hocc : station.current_basket = none) :
    stationStep now (s, R) name = (s, R) := by
  unfold stationStep
  simp only [hstl, hocc]

theorem stationStep_eq_missingBasket {s : ConveyorSystem} {R : List ℕ}
    {now : Time} {name : String} {station : Station} {bid : ℕ}
    (hstl : lookA s.stations name = some station)
    (hocc : station.current_basket = some bid)
    (hb : lookA s.baskets bid = none) :
    stationStep now (s, R) name = (s, R) := by
  unfold stationStep
  simp only [hstl, hocc, hb]

theorem stationStep_eq_early {s : ConveyorSystem} {R : List ℕ} {now : Time}
    {name : String} {station : Station} {bid : ℕ} {b : Basket}
    (hstl : lookA s.stations name = some station)
    (hocc : station.current_basket = some bid)
    (hb : lookA s.baskets bid = some b)
    (hlt : now < station.finish_time) :
    stationStep now (s, R) name = (s, R) := by
  unfold stationStep
  simp only [hstl, hocc, hb, Station.finish_processing,
    if_neg (not_le.mpr hlt)]

theorem stationStep_eq_release_noZone {s : ConveyorSystem} {R : List ℕ}
    {now : Time} {name : String} {station : Station} {bid : ℕ} {b : Basket}
    (hstl : lookA s.stations name = some station)
    (hocc : station.current_basket = some bid)
    (hb : lookA s.baskets bid = some b)
    (hge : station.finish_time ≤ now)
    (hwzl : lookA s.waiting_zones ("Waiting_" ++ name) = none) :
    stationStep now (s, R) name =
      ({ s with
           stations := updA s.stations name
             { station with current_basket := none, is_available := true },
           baskets := updA s.baskets bid
             { b.update_route with location := "Out_of_Station_" ++ station.name },
           log := s.log ++ [Event.signal name bid] }, R ++ [bid]) := by
  unfold stationStep
  simp only [hstl, hocc, hb, Station.finish_processing, if_pos hge, hwzl]

theorem stationStep_eq_release_emptyZone {s : ConveyorSystem} {R : List ℕ}
    {now : Time} {name : String} {station : Station} {bid : ℕ} {b : Basket}
    {wz : WaitingZone}
    (hstl : lookA s.stations name = some station)
    (hocc : station.current_basket = some bid)
    (hb : lookA s.baskets bid = some b)
    (hge : station.finish_time ≤ now)
    (hwzl : lookA s.waiting_zones ("Waiting_" ++ name) = some wz)
    (hq : wz.queue = []) :
    stationStep now (s, R) name =
      ({ s with
           stations := updA s.stations name
             { station with current_basket := none, is_available := true },
           baskets := updA s.baskets bid
             { b.update_route with location := "Out_of_Station_" ++ station.name },
           log := s.log ++ [Event.signal name bid] }, R ++ [bid]) := by
  unfold stationStep
  simp only [hstl, hocc, hb, Station.finish_processing, if_pos hge, hwzl,
    WaitingZone.get_next_basket, hq]

theorem stationStep_eq_release_missingNext {s : ConveyorSystem} {R : List ℕ}
    {now : Time} {name : String} {station : Station} {bid nid : ℕ} {b : Basket}
    {wz : WaitingZone} {rest : List ℕ}
    (hstl : lookA s.stations name = some station)
    (hocc : station.current_basket = some bid)
    (hb : lookA s.baskets bid = some b)
    (hge : station.finish_time ≤ now)
    (hwzl : lookA s.waiting_zones ("Waiting_" ++ name) = some wz)
    (hq : wz.queue = nid :: rest)
    (hnb : lookA s.baskets nid = none) :
    stationStep now (s, R) name =
      ({ s with
           stations := updA s.stations name
             { station with current_basket := none, is_available := true },
           baskets := updA s.baskets bid
             { b.update_route with location := "Out_of_Station_" ++ station.name },
           log := s.log ++ [Event.signal name bid] }, R ++ [bid]) := by
  unfold stationStep
  simp only [hstl, hocc, hb, Station.finish_processing, if_pos hge, hwzl,
    WaitingZone.get_next_basket, hq]
  have hnb' : lookA (updA s.baskets bid
      { b.update_route with location := "Out_of_Station_" ++ station.name }) nid
      = none := by
    have hne : nid ≠ bid := by
      intro hc
      rw [hc, hb] at hnb
      exact Option.noConfusion hnb
    rw [lookA_updA_ne _ hne, hnb]
  simp only [hnb']

theorem stationStep_eq_release_pull {s : ConveyorSystem} {R : List ℕ}
    {now : Time} {name : String} {station : Station} {bid nid : ℕ} {b nb : Basket}
    {wz : WaitingZone} {rest : List ℕ}
    (hstl : lookA s.stations name = some station)
    (hocc : station.current_basket = some bid)
    (hb : lookA s.baskets bid = some b)
    (hge : station.finish_time ≤ now)
    (hwzl : lookA s.waiting_zones ("Waiting_" ++ name) = some wz)
    (hq : wz.queue = nid :: rest)
    (hne : nid ≠ bid)
    (hnb : lookA s.baskets nid = some nb) :
    stationStep now (s, R) name =
      ({ s with
           stations := updA (updA s.stations name
             { station with current_basket := none, is_available := true }) name
             { station with current_basket := some nb.id, is_available := false,
                            finish_time := now + station.processing_time },
           waiting_zones := updA s.waiting_zones ("Waiting_" ++ name)
             { wz with queue := rest },
           baskets := updA (updA s.baskets bid
             { b.update_route with location := "Out_of_Station_" ++ station.name }) nid
             { nb with location := "In_Station_" ++ station.name },
           log := (s.log ++ [Event.signal name bid])
                    ++ [Event.moveFromWaiting nid name] }, R ++ [bid]) := by
  unfold stationStep
  simp only [hstl, hocc, hb, Station.finish_processing, if_pos hge, hwzl,
    WaitingZone.get_next_basket, hq]
  have hnb' : lookA (updA s.baskets bid
      { b.update_route with location := "Out_of_Station_" ++ station.name }) nid
      = some nb := by
    rw [lookA_updA_ne _ hne, hnb]
  simp only [hnb', Station.load_basket, if_true]

theorem placed_decomp_st {s : ConveyorSystem} {S1 S2 : List (String × Station)}
    {name : String} {station : Station}
    (heq : s.stations = S1 ++ (name, station) :: S2) (j : ℕ) :
    (placedIds s).count j
      = s.entry_queue.count j
        + ((occIds S1).count j + (Option.toList station.current_basket).count j
            + (occIds S2).count j)
        + (zoneIds s.waiting_zones).count j := by
  simp only [placedIds]
  rw [heq, occIds_split]
  simp [List.count_append]
  omega

theorem placed_decomp_both {s : ConveyorSystem} {S1 S2 : List (String × Station)}
    {name : String} {station : Station} {Z1 Z2 : List (String × WaitingZone)}
    {zname : String} {wz : WaitingZone}
    (heqS : s.stations = S1 ++ (name, station) :: S2)
    (heqZ : s.waiting_zones = Z1 ++ (zname, wz) :: Z2) (j : ℕ) :
    (placedIds s).count j
      = s.entry_queue.count j
        + ((occIds S1).count j + (Option.toList station.current_basket).count j
            + (occIds S2).count j)
        + ((zoneIds Z1).count j + wz.queue.count j + (zoneIds Z2).count j) := by
  simp only [placedIds]
  rw [heqS, occIds_split, heqZ, zoneIds_split]
  simp [List.count_append]
  omega

theorem placed_decomp_wz {s : ConveyorSystem} {Z1 Z2 : List (String × WaitingZone)}
    {zname : String} {wz : WaitingZone}
    (heq : s.waiting_zones = Z1 ++ (zname, wz) :: Z2) (j : ℕ) :
    (placedIds s).count j
      = s.entry_queue.count j + (occIds s.stations).count j
        + ((zoneIds Z1).count j + wz.queue.count j + (zoneIds Z2).count j) := by
  simp only [placedIds]
  rw [heq, zoneIds_split]
  simp [List.count_append]
  omega

/-- Effect summary of one station-service step: active/finished/entry are
untouched, key sets are preserved, placement counts never grow, baskets with
no placement keep their arena entry, and any newly recorded released id was
placed before the step. -/
theorem stationStep_effects (s : ConveyorSystem) (R : List ℕ) (now : Time)
    (name : String)
    (hst : (s.stations.map Prod.fst).Nodup)
    (hwz : (s.waiting_zones.map Prod.fst).Nodup)
    (hids : ArenaIds s)
    (hp1 : ∀ j, (placedIds s).count j ≤ 1) :
    (stationStep now (s, R) name).1.station_names = s.station_names ∧
    (stationStep now (s, R) name).1.entry_queue = s.entry_queue ∧
    (stationStep now (s, R) name).1.active_baskets = s.active_baskets ∧
    (stationStep now (s, R) name).1.finished_baskets = s.finished_baskets ∧
    keysOf (stationStep now (s, R) name).1 = keysOf s ∧
    (stationStep now (s, R) name).1.stations.map Prod.fst
      = s.stations.map Prod.fst ∧
    (stationStep now (s, R) name).1.waiting_zones.map Prod.fst
      = s.waiting_zones.map Prod.fst ∧
    (∀ j, (placedIds (stationStep now (s, R) name).1).count j
        ≤ (placedIds s).count j) ∧
    (∀ j, (placedIds s).count j = 0 →
      lookA (stationStep now (s, R) name).1.baskets j = lookA s.baskets j) ∧
    (∀ j, j ∈ (stationStep now (s, R) name).2 →
      j ∈ R ∨ 0 < (placedIds s).count j) := by
  rcases hstl : lookA s.stations name with _ | station
  · rw [stationStep_eq_noStation hstl]
    exact ⟨rfl, rfl, rfl, rfl, rfl, rfl, rfl, fun j => Nat.le_refl _,
           fun j _ => rfl, fun j hj => Or.inl hj⟩
  rcases hocc : station.current_basket with _ | bid
  · rw [stationStep_eq_idle hstl hocc]
    exact ⟨rfl, rfl, rfl, rfl, rfl, rfl, rfl, fun j => Nat.le_refl _,
           fun j _ => rfl, fun j hj => Or.inl hj⟩
  rcases hb : lookA s.baskets bid with _ | b
  · rw [stationStep_eq_missingBasket hstl hocc hb]
    exact ⟨rfl, rfl, rfl, rfl, rfl, rfl, rfl, fun j => Nat.le_refl _,
           fun j _ => rfl, fun j hj => Or.inl hj⟩
  by_cases hge : station.finish_time ≤ now
  case neg =>
    rw [stationStep_eq_early hstl hocc hb (not_le.mp hge)]
    exact ⟨rfl, rfl, rfl, rfl, rfl, rfl, rfl, fun j => Nat.le_refl _,
           fun j _ => rfl, fun j hj => Or.inl hj⟩
  case pos =>
  obtain ⟨S1, S2, heqS, hS1, hS2, hupdS⟩ := lookA_some_split hst hstl
  have hdec := fun j => placed_decomp_st heqS j
  have hbid_pos : 0 < (placedIds s).count bid := by
    have := hdec bid
    rw [hocc] at this
    simp [List.count_cons] at this
    omega
  have hmain : ∀ (s' : ConveyorSystem) (R' : List ℕ),
      (stationStep now (s, R) name = (s', R')) →
      s'.station_names = s.station_names →
      s'.entry_queue = s.entry_queue →
      s'.active_baskets = s.active_baskets →
      s'.finished_baskets = s.finished_baskets →
      keysOf s' = keysOf s →
      s'.stations.map Prod.fst = s.stations.map Prod.fst →
      s'.waiting_zones.map Prod.fst = s.waiting_zones.map Prod.fst →
      (∀ j, (placedIds s').count j ≤ (placedIds s).count j) →
      (∀ j, (placedIds s).count j = 0 →
        lookA s'.baskets j = lookA s.baskets j) →
      R' = R ++ [bid] →
      (stationStep now (s, R) name).1.station_names = s.station_names ∧
      (stationStep now (s, R) name).1.entry_queue = s.entry_queue ∧
      (stationStep now (s, R) name).1.active_baskets = s.active_baskets ∧
      (stationStep now (s, R) name).1.finished_baskets = s.finished_baskets ∧
      keysOf (stationStep now (s, R) name).1 = keysOf s ∧
      (stationStep now (s, R) name).1.stations.map Prod.fst
        = s.stations.map Prod.fst ∧
      (stationStep now (s, R) name).1.waiting_zones.map Prod.fst
        = s.waiting_zones.map Prod.fst ∧
      (∀ j, (placedIds (stationStep now (s, R) name).1).count j
          ≤ (placedIds s).count j) ∧
      (∀ j, (placedIds s).count j = 0 →
        lookA (stationStep now (s, R) name).1.baskets j = lookA s.baskets j) ∧
      (∀ j, j ∈ (stationStep now (s, R) name).2 →
        j ∈ R ∨ 0 < (placedIds s).count j) := by
    intro s' R' heq h1 h2 h3 h4 h5 h6 h7 h8 h9 hR'
    rw [heq]
    refine ⟨h1, h2, h3, h4, h5, h6, h7, h8, h9, ?_⟩
    intro j hj
    rw [hR'] at hj
    rcases List.mem_append.mp hj with hj | hj
    · exact Or.inl hj
    · have : j = bid := by simpa using hj
      exact Or.inr (this ▸ hbid_pos)
  -- abbreviations for the released-station record
  have hrel_placed : ∀ j,
      (placedIds { s with
          stations := updA s.stations name
            { station with current_basket := none, is_available := true },
          baskets := updA s.baskets bid
            { b.update_route with location := "Out_of_Station_" ++ station.name },
          log := s.log ++ [Event.signal name bid] }).count j
        ≤ (placedIds s).count j := by
    intro j
    have hnew : (placedIds { s with
        stations := updA s.stations name
          { station with current_basket := none, is_available := true },
        baskets := updA s.baskets bid
          { b.update_route with location := "Out_of_Station_" ++ station.name },
        log := s.log ++ [Event.signal name bid] }).count j
        = s.entry_queue.count j
          + ((occIds S1).count j + (occIds S2).count j)
          + (zoneIds s.waiting_zones).count j := by
      simp only [placedIds]
      rw [hupdS, occIds_split]
      simp [List.count_append, Option.toList]
      omega
    rw [hnew, hdec j]
    have : (0 : ℕ) ≤ (Option.toList station.current_basket).count j :=
      Nat.zero_le _
    omega
  have hrel_look : ∀ j, (placedIds s).count j = 0 →
      lookA (updA s.baskets bid
        { b.update_route with location := "Out_of_Station_" ++ station.name }) j
        = lookA s.baskets j := by
    intro j hj0
    have hne : j ≠ bid := by
      intro hc
      rw [hc] at hj0
      omega
    exact lookA_updA_ne _ hne
  rcases hwzl : lookA s.waiting_zones ("Waiting_" ++ name) with _ | wz
  · exact hmain _ _ (stationStep_eq_release_noZone hstl hocc hb hge hwzl)
      rfl rfl rfl rfl (by simp [keysOf, mapFst_updA])
      (by simp [mapFst_updA]) rfl hrel_placed hrel_look rfl
  rcases hq : wz.queue with _ | ⟨nid, rest⟩
  · exact hmain _ _ (stationStep_eq_release_emptyZone hstl hocc hb hge hwzl hq)
      rfl rfl rfl rfl (by simp [keysOf, mapFst_updA])
      (by simp [mapFst_updA]) rfl hrel_placed hrel_look rfl
  rcases hnb : lookA s.baskets nid with _ | nb
  · exact hmain _ _ (stationStep_eq_release_missingNext hstl hocc hb hge hwzl hq hnb)
      rfl rfl rfl rfl (by simp [keysOf, mapFst_updA])
      (by simp [mapFst_updA]) rfl hrel_placed hrel_look rfl
  · -- buffer-to-station pull
    obtain ⟨Z1, Z2, heqZ, hZ1, hZ2, hupdZ⟩ := lookA_some_split hwz hwzl
    have hdec2 := fun j => placed_decomp_both heqS heqZ j
    have hnid_pos : 0 < (placedIds s).count nid := by
      have := hdec2 nid
      rw [hq] at this
      simp [List.count_cons] at this
      omega
    have hne : nid ≠ bid := by
      intro hc
      have h1 := hdec2 bid
      rw [hocc, hq, hc] at h1
      simp [List.count_cons] at h1
      have := hp1 bid
      omega
    have hnbid : nb.id = nid := hids _ (lookA_mem hnb)
    rw [stationStep_eq_release_pull hstl hocc hb hge hwzl hq hne hnb]
    have hupd2 : updA (updA s.stations name
        { station with current_basket := none, is_available := true }) name
        { station with current_basket := some nb.id, is_available := false,
                       finish_time := now + station.processing_time }
        = S1 ++ (name, { station with current_basket := some nb.id,
                                      is_available := false,
                                      finish_time := now + station.processing_time }) :: S2 := by
      rw [hupdS]
      exact updA_append_cons hS1 hS2 _
    refine ⟨rfl, rfl, rfl, rfl, by simp [keysOf, mapFst_updA],
            by simp [mapFst_updA], by simp [mapFst_updA], ?_, ?_, ?_⟩
    · intro j
      have hnew : (placedIds { s with
          stations := updA (updA s.stations name
            { station with current_basket := none, is_available := true }) name
            { station with current_basket := some nb.id, is_available := false,
                           finish_time := now + station.processing_time },
          waiting_zones := updA s.waiting_zones ("Waiting_" ++ name)
            { wz with queue := rest },
          baskets := updA (updA s.baskets bid
            { b.update_route with location := "Out_of_Station_" ++ station.name }) nid
            { nb with location := "In_Station_" ++ station.name },
          log := (s.log ++ [Event.signal name bid])
                   ++ [Event.moveFromWaiting nid name] }).count j
          = s.entry_queue.count j
            + ((occIds S1).count j + [nid].count j + (occIds S2).count j)
            + ((zoneIds Z1).count j + rest.count j + (zoneIds Z2).count j) := by
        simp only [placedIds]
        rw [hupd2, occIds_split, hupdZ, zoneIds_split]
        simp [List.count_append, List.count_cons, Option.toList, hnbid]
        omega
      rw [hnew, hdec2 j]
      rw [hocc, hq]
      simp only [List.count_cons, Option.toList]
      omega
    · intro j hj0
      have hnej : j ≠ bid := by
        intro hc
        rw [hc] at hj0
        omega
      have hnej2 : j ≠ nid := by
        intro hc
        rw [hc] at hj0
        omega
      rw [lookA_updA_ne _ hnej2, lookA_updA_ne _ hnej]
    · intro j hj
      rcases List.mem_append.mp hj with hj | hj
      · exact Or.inl hj
      · have : j = bid := by simpa using hj
        exact Or.inr (this ▸ hbid_pos)

theorem arenaIds_updA {l : List (ℕ × Basket)} {k : ℕ} {v : Basket}
    (hids : ∀ p ∈ l, p.2.id = p.1) (hv : v.id = k) :
    ∀ p ∈ updA l k v, p.2.id = p.1 := by
  intro p hp
  rcases mem_updA hp with h | h
  · exact hids p h
  · rw [h]
    exact hv

theorem detect_arena (s : ConveyorSystem) (bid : ℕ) (now : Time)
    (hids : ArenaIds s) : ArenaIds (detect_and_manage_collision s bid now).1 := by
  rcases hb : lookA s.baskets bid with _ | b
  · rw [detect_eq_missing hb]
    exact hids
  have hbid : b.id = bid := hids _ (lookA_mem hb)
  rcases hns : b.next_station with _ | target
  · rw [detect_eq_finished hb hns]
    exact arenaIds_updA hids hbid
  rcases hstl : lookA s.stations target with _ | st
  · rw [detect_eq_err_station hb hns hstl]
    exact hids
  rcases hwzl : lookA s.waiting_zones ("Waiting_" ++ target) with _ | wz
  · rw [detect_eq_err_zone hb hns hstl hwzl]
    exact hids
  rcases hav : st.is_available with _ | _
  · rcases hfull : wz.is_full with _ | _
    · rw [detect_eq_waiting hb hns hstl hwzl hav hfull]
      exact arenaIds_updA hids hbid
    · rw [detect_eq_halted hb hns hstl hwzl hav hfull]
      exact hids
  · rw [detect_eq_loaded hb hns hstl hwzl hav]
    exact arenaIds_updA hids hbid

theorem stationStep_arena (s : ConveyorSystem) (R : List ℕ) (now : Time)
    (name : String)
    (hst : (s.stations.map Prod.fst).Nodup)
    (hwz : (s.waiting_zones.map Prod.fst).Nodup)
    (hp1 : ∀ j, (placedIds s).count j ≤ 1)
    (hids : ArenaIds s) :
    ArenaIds (stationStep now (s, R) name).1 := by
  rcases hstl : lookA s.stations name with _ | station
  · rw [stationStep_eq_noStation hstl]
    exact hids
  rcases hocc : station.current_basket with _ | bid
  · rw [stationStep_eq_idle hstl hocc]
    exact hids
  rcases hb : lookA s.baskets bid with _ | b
  · rw [stationStep_eq_missingBasket hstl hocc hb]
    exact hids
  by_cases hge : station.finish_time ≤ now
  case neg =>
    rw [stationStep_eq_early hstl hocc hb (not_le.mp hge)]
    exact hids
  case pos =>
  have hbid : b.id = bid := hids _ (lookA_mem hb)
  have hrel : ∀ p ∈ updA s.baskets bid
      { b.update_route with location := "Out_of_Station_" ++ station.name },
      p.2.id = p.1 :=
    arenaIds_updA hids (by rw [update_route_id, hbid])
  rcases hwzl : lookA s.waiting_zones ("Waiting_" ++ name) with _ | wz
  · rw [stationStep_eq_release_noZone hstl hocc hb hge hwzl]
    exact hrel
  rcases hq : wz.queue with _ | ⟨nid, rest⟩
  · rw [stationStep_eq_release_emptyZone hstl hocc hb hge hwzl hq]
    exact hrel
  rcases hnb : lookA s.baskets nid with _ | nb
  · rw [stationStep_eq_release_missingNext hstl hocc hb hge hwzl hq hnb]
    exact hrel
  · obtain ⟨S1, S2, heqS, hS1, hS2, hupdS⟩ := lookA_some_split hst hstl
    obtain ⟨Z1, Z2, heqZ, hZ1, hZ2, hupdZ⟩ := lookA_some_split hwz hwzl
    have hdec2 := fun j => placed_decomp_both heqS heqZ j
    have hne : nid ≠ bid := by
      intro hc
      have h1 := hdec2 bid
      rw [hocc, hq, hc] at h1
      simp [List.count_cons] at h1
      have := hp1 bid
      omega
    rw [stationStep_eq_release_pull hstl hocc hb hge hwzl hq hne hnb]
    exact arenaIds_updA hrel (hids _ (lookA_mem hnb))

/-- A released id recorded by one station step is unplaced afterwards, and the
released list grows by at most one id. -/
theorem stationStep_released_new (s : ConveyorSystem) (R : List ℕ) (now : Time)
    (name : String)
    (hst : (s.stations.map Prod.fst).Nodup)
    (hwz : (s.waiting_zones.map Prod.fst).Nodup)
    (hids : ArenaIds s)
    (hp1 : ∀ j, (placedIds s).count j ≤ 1) :
    (∀ j, j ∈ (stationStep now (s, R) name).2 → j ∉ R →
      (placedIds (stationStep now (s, R) name).1).count j = 0) ∧
    ((stationStep now (s, R) name).2 = R ∨
      ∃ b2, (stationStep now (s, R) name).2 = R ++ [b2] ∧
        0 < (placedIds s).count b2) := by
  rcases hstl : lookA s.stations name with _ | station
  · rw [stationStep_eq_noStation hstl]
    exact ⟨fun j hj hnj => absurd hj hnj, Or.inl rfl⟩
  rcases hocc : station.current_basket with _ | bid
  · rw [stationStep_eq_idle hstl hocc]
    exact ⟨fun j hj hnj => absurd hj hnj, Or.inl rfl⟩
  rcases hb : lookA s.baskets bid with _ | b
  · rw [stationStep_eq_missingBasket hstl hocc hb]
    exact ⟨fun j hj hnj => absurd hj hnj, Or.inl rfl⟩
  by_cases hge : station.finish_time ≤ now
  case neg =>
    rw [stationStep_eq_early hstl hocc hb (not_le.mp hge)]
    exact ⟨fun j hj hnj => absurd hj hnj, Or.inl rfl⟩
  case pos =>
  obtain ⟨S1, S2, heqS, hS1, hS2, hupdS⟩ := lookA_some_split hst hstl
  have hdec := fun j => placed_decomp_st heqS j
  have hparts : s.entry_queue.count bid = 0 ∧ (occIds S1).count bid = 0 ∧
      (occIds S2).count bid = 0 ∧ (zoneIds s.waiting_zones).count bid = 0 := by
    have h1 := hdec bid
    have h2 := hp1 bid
    rw [hocc] at h1
    simp [List.count_cons] at h1
    omega
  have hpos : 0 < (placedIds s).count bid := by
    have h1 := hdec bid
    rw [hocc] at h1
    simp [List.count_cons] at h1
    omega
  have hrelc : ∀ j, (placedIds { s with
      stations := updA s.stations name
        { station with current_basket := none, is_available := true },
      baskets := updA s.baskets bid
        { b.update_route with location := "Out_of_Station_" ++ station.name },
      log := s.log ++ [Event.signal name bid] }).count j
      = s.entry_queue.count j
        + ((occIds S1).count j + (occIds S2).count j)
        + (zoneIds s.waiting_zones).count j := by
    intro j
    simp only [placedIds]
    rw [hupdS, occIds_split]
    simp [List.count_append, Option.toList]
    omega
  have hrel_zero : (placedIds { s with
      stations := updA s.stations name
        { station with current_basket := none, is_available := true },
      baskets := updA s.baskets bid
        { b.update_route with location := "Out_of_Station_" ++ station.name },
      log := s.log ++ [Event.signal name bid] }).count bid = 0 := by
    rw [hrelc bid]
    omega
  have hmem : ∀ j : ℕ, j ∈ R ++ [bid] → j ∉ R → j = bid := by
    intro j hj hnj
    rcases List.mem_append.mp hj with h | h
    · exact absurd h hnj
    · simpa using h
  rcases hwzl : lookA s.waiting_zones ("Waiting_" ++ name) with _ | wz
  · rw [stationStep_eq_release_noZone hstl hocc hb hge hwzl]
    exact ⟨fun j hj hnj => (hmem j hj hnj) ▸ hrel_zero, Or.inr ⟨bid, rfl, hpos⟩⟩
  rcases hq : wz.queue with _ | ⟨nid, rest⟩
  · rw [stationStep_eq_release_emptyZone hstl hocc hb hge hwzl hq]
    exact ⟨fun j hj hnj => (hmem j hj hnj) ▸ hrel_zero, Or.inr ⟨bid, rfl, hpos⟩⟩
  rcases hnb : lookA s.baskets nid with _ | nb
  · rw [stationStep_eq_release_missingNext hstl hocc hb hge hwzl hq hnb]
    exact ⟨fun j hj hnj => (hmem j hj hnj) ▸ hrel_zero, Or.inr ⟨bid, rfl, hpos⟩⟩
  · obtain ⟨Z1, Z2, heqZ, hZ1, hZ2, hupdZ⟩ := lookA_some_split hwz hwzl
    have hdec2 := fun j => placed_decomp_both heqS heqZ j
    have hne : nid ≠ bid := by
      intro hc
      have h1 := hdec2 bid
      rw [hocc, hq, hc] at h1
      simp [List.count_cons] at h1
      have := hp1 bid
      omega
    have hnbid : nb.id = nid := hids _ (lookA_mem hnb)
    rw [stationStep_eq_release_pull hstl hocc hb hge hwzl hq hne hnb]
    have hupd2 : updA (updA s.stations name
        { station with current_basket := none, is_available := true }) name
        { station with current_basket := some nb.id, is_available := false,
                       finish_time := now + station.processing_time }
        = S1 ++ (name, { station with current_basket := some nb.id,
                                      is_available := false,
                                      finish_time := now + station.processing_time }) :: S2 := by
      rw [hupdS]
      exact updA_append_cons hS1 hS2 _
    have hzero : (placedIds { s with
        stations := updA (updA s.stations name
          { station with current_basket := none, is_available := true }) name
          { station with current_basket := some nb.id, is_available := false,
                         finish_time := now + station.processing_time },
        waiting_zones := updA s.waiting_zones ("Waiting_" ++ name)
          { wz with queue := rest },
        baskets := updA (updA s.baskets bid
          { b.update_route with location := "Out_of_Station_" ++ station.name }) nid
          { nb with location := "In_Station_" ++ station.name },
        log := (s.log ++ [Event.signal name bid])
                 ++ [Event.moveFromWaiting nid name] }).count bid = 0 := by
      have hq0 : rest.count bid = 0 := by
        have h1 := hdec2 bid
        have h2 := hp1 bid
        rw [hocc, hq] at h1
        simp [List.count_cons] at h1
        omega
      simp only [placedIds]
      rw [hupd2, occIds_split, hupdZ, zoneIds_split]
      have h1 := hdec2 bid
      have h2 := hp1 bid
      rw [hocc, hq] at h1
      simp [List.count_cons] at h1
      simp [List.count_append, List.count_cons, Option.toList, hnbid,
        Ne.symm hne, hq0]
      omega
    exact ⟨fun j hj hnj => (hmem j hj hnj) ▸ hzero, Or.inr ⟨bid, rfl, hpos⟩⟩

/-- After routing an unplaced basket, its own placement count is at most one
(it is placed in at most one container). -/
theorem detect_placed_bid (s : ConveyorSystem) (bid : ℕ) (now : Time)
    (hst : (s.stations.map Prod.fst).Nodup)
    (hwz : (s.waiting_zones.map Prod.fst).Nodup)
    (hids : ArenaIds s)
    (hnp : (placedIds s).count bid = 0) :
    (placedIds (detect_and_manage_collision s bid now).1).count bid ≤ 1 := by
  rcases hb : lookA s.baskets bid with _ | b
  · rw [detect_eq_missing hb]
    show (placedIds s).count bid ≤ 1
    omega
  have hbid : b.id = bid := hids _ (lookA_mem hb)
  rcases hns : b.next_station with _ | target
  · rw [detect_eq_finished hb hns]
    show (placedIds s).count bid ≤ 1
    omega
  rcases hstl : lookA s.stations target with _ | st
  · rw [detect_eq_err_station hb hns hstl]
    show (placedIds s).count bid ≤ 1
    omega
  rcases hwzl : lookA s.waiting_zones ("Waiting_" ++ target) with _ | wz
  · rw [detect_eq_err_zone hb hns hstl hwzl]
    show (placedIds s).count bid ≤ 1
    omega
  rcases hav : st.is_available with _ | _
  · rcases hfull : wz.is_full with _ | _
    · rw [detect_eq_waiting hb hns hstl hwzl hav hfull]
      obtain ⟨Z1, Z2, heqZ, hZ1, hZ2, hupdZ⟩ := lookA_some_split hwz hwzl
      have hdec := placed_decomp_wz heqZ bid
      have hnew : (placedIds { s with
          waiting_zones := updA s.waiting_zones ("Waiting_" ++ target)
            { wz with queue := wz.queue ++ [bid] },
          baskets := updA s.baskets bid { b with location := wz.name },
          log := s.log ++ [Event.wait bid target],
          is_entry_halted := false }).count bid
          = s.entry_queue.count bid + (occIds s.stations).count bid
            + ((zoneIds Z1).count bid + (wz.queue.count bid + 1)
                + (zoneIds Z2).count bid) := by
        simp only [placedIds]
        rw [hupdZ, zoneIds_split]
        simp [List.count_append, List.count_cons]
        omega
      rw [hnew]
      rw [hdec] at hnp
      omega
    · rw [detect_eq_halted hb hns hstl hwzl hav hfull]
      show (placedIds s).count bid ≤ 1
      omega
  · rw [detect_eq_loaded hb hns hstl hwzl hav]
    obtain ⟨S1, S2, heqS, hS1, hS2, hupdS⟩ := lookA_some_split hst hstl
    have hdec := placed_decomp_st heqS bid
    have hnew : (placedIds { s with
        stations := updA s.stations target
          { st with current_basket := some b.id, is_available := false,
                    finish_time := now + st.processing_time },
        baskets := updA s.baskets bid { b with location := "In_Station_" ++ st.name },
        log := s.log ++ [Event.move bid target],
        is_entry_halted := false }).count bid
        = s.entry_queue.count bid
          + ((occIds S1).count bid + 1 + (occIds S2).count bid)
          + (zoneIds s.waiting_zones).count bid := by
      simp only [placedIds]
      rw [hupdS, occIds_split]
      simp [List.count_append, List.count_cons, Option.toList, hbid]
      omega
    rw [hnew]
    rw [hdec] at hnp
    omega

/-! ### Branch equations and effects for the entry-admission phase -/

theorem entryPhase_eq_empty {s : ConveyorSystem} {now : Time}
    (hq : s.entry_queue = []) : entryPhase s now = s := by
  unfold entryPhase
  simp only [hq]

theorem entryPhase_eq_halted {s : ConveyorSystem} {now : Time} {e : ℕ}
    {rest : List ℕ} (hq : s.entry_queue = e :: rest)
    (hh : s.is_entry_halted = true) : entryPhase s now = s := by
  unfold entryPhase
  simp only [hq, hh, if_true]

theorem entryPhase_eq_pop {s : ConveyorSystem} {now : Time} {e : ℕ}
    {rest : List ℕ} (hq : s.entry_queue = e :: rest)
    (hh : s.is_entry_halted = false) :
    entryPhase s now =
      (detect_and_manage_collision
        { s with entry_queue := rest, log := s.log ++ [Event.entry e] } e now).1 := by
  unfold entryPhase
  simp only [hq, hh, Bool.false_eq_true, if_false]

/-- Entry-phase effect summary: structure preserved, arena ids preserved,
placement multiplicity stays at most one, and a basket placed nowhere is
completely untouched. -/
theorem entryPhase_effects (s : ConveyorSystem) (now : Time)
    (hst : (s.stations.map Prod.fst).Nodup)
    (hwz : (s.waiting_zones.map Prod.fst).Nodup)
    (hids : ArenaIds s)
    (hp1 : ∀ j, (placedIds s).count j ≤ 1) :
    (entryPhase s now).station_names = s.station_names ∧
    keysOf (entryPhase s now) = keysOf s ∧
    (entryPhase s now).stations.map Prod.fst = s.stations.map Prod.fst ∧
    (entryPhase s now).waiting_zones.map Prod.fst = s.waiting_zones.map Prod.fst ∧
    ArenaIds (entryPhase s now) ∧
    (∀ j, (placedIds (entryPhase s now)).count j ≤ 1) ∧
    (∀ j, (placedIds s).count j = 0 →
      ((placedIds (entryPhase s now)).count j = 0 ∧
       (entryPhase s now).active_baskets.count j = s.active_baskets.count j ∧
       (entryPhase s now).finished_baskets.count j = s.finished_baskets.count j ∧
       lookA (entryPhase s now).baskets j = lookA s.baskets j)) := by
  rcases hq : s.entry_queue with _ | ⟨e, rest⟩
  · rw [entryPhase_eq_empty hq]
    exact ⟨rfl, rfl, rfl, rfl, hids, hp1, fun j hj => ⟨hj, rfl, rfl, rfl⟩⟩
  rcases hh : s.is_entry_halted with _ | _
  case cons.true =>
    rw [entryPhase_eq_halted hq hh]
    exact ⟨rfl, rfl, rfl, rfl, hids, hp1, fun j hj => ⟨hj, rfl, rfl, rfl⟩⟩
  case cons.false =>
  rw [entryPhase_eq_pop hq hh]
  set s1 : ConveyorSystem :=
    { s with entry_queue := rest, log := s.log ++ [Event.entry e] } with hs1
  have hplace1 : ∀ j, (placedIds s1).count j
      + (if e = j then 1 else 0) = (placedIds s).count j := by
    intro j
    simp only [placedIds, hs1, hq, List.count_append, List.count_cons, beq_iff_eq]
    omega
  have hst1 : (s1.stations.map Prod.fst).Nodup := hst
  have hwz1 : (s1.waiting_zones.map Prod.fst).Nodup := hwz
  have hids1 : ArenaIds s1 := hids
  have hp11 : ∀ j, (placedIds s1).count j ≤ 1 := by
    intro j
    have h1 := hplace1 j
    have h2 := hp1 j
    omega
  have hnp1 : (placedIds s1).count e = 0 := by
    have h1 := hplace1 e
    have h2 := hp1 e
    have h3 : 0 < (placedIds s).count e := by
      have : e ∈ placedIds s := by
        simp [placedIds, hq]
      exact List.count_pos_iff.mpr this
    simp at h1
    omega
  have hshape := detect_shape s1 e now
  refine ⟨hshape.1, hshape.2.2.1, hshape.2.2.2.1, hshape.2.2.2.2,
          detect_arena s1 e now hids1, ?_, ?_⟩
  · intro j
    by_cases hje : j = e
    · subst hje
      exact detect_placed_bid s1 j now hst1 hwz1 hids1 hnp1
    · have heff := detect_effects s1 e now hst1 hwz1 hids1 j hje
      have h1 := hplace1 j
      have h2 := hp1 j
      omega
  · intro j hj0
    have hje : j ≠ e := by
      intro hc
      subst hc
      have : j ∈ placedIds s := by
        simp [placedIds, hq]
      have := List.count_pos_iff.mpr this
      omega
    have heff := detect_effects s1 e now hst1 hwz1 hids1 j hje
    have h1 := hplace1 j
    refine ⟨?_, ?_, ?_, ?_⟩
    · have := heff.1
      simp [hje] at h1
      omega
    · exact heff.2.1
    · exact heff.2.2.1
    · exact heff.2.2.2

/-- Summary of the effect of any prefix of the station-service phase, relating
the accumulator `(s, R)` it started from to its output. -/
def StepOut (s : ConveyorSystem) (R : List ℕ) (out : ConveyorSystem × List ℕ) :
    Prop :=
  out.1.station_names = s.station_names ∧
  out.1.entry_queue = s.entry_queue ∧
  out.1.active_baskets = s.active_baskets ∧
  out.1.finished_baskets = s.finished_baskets ∧
  keysOf out.1 = keysOf s ∧
  out.1.stations.map Prod.fst = s.stations.map Prod.fst ∧
  out.1.waiting_zones.map Prod.fst = s.waiting_zones.map Prod.fst ∧
  ArenaIds out.1 ∧
  (∀ j, (placedIds out.1).count j ≤ (placedIds s).count j) ∧
  (∀ j, (placedIds s).count j = 0 → lookA out.1.baskets j = lookA s.baskets j) ∧
  (∀ r ∈ out.2, r ∈ R ∨ 0 < (placedIds s).count r) ∧
  (∀ r ∈ out.2, (placedIds out.1).count r = 0) ∧
  out.2.Nodup

theorem stepOut_trans {s : ConveyorSystem} {R : List ℕ}
    {p q : ConveyorSystem × List ℕ}
    (h1 : StepOut s R p) (h2 : StepOut p.1 p.2 q) : StepOut s R q := by
  obtain ⟨a1, a2, a3, a4, a5, a6, a7, a8, a9, a10, a11, a12, a13⟩ := h1
  obtain ⟨b1, b2, b3, b4, b5, b6, b7, b8, b9, b10, b11, b12, b13⟩ := h2
  refine ⟨b1.trans a1, b2.trans a2, b3.trans a3, b4.trans a4, b5.trans a5,
          b6.trans a6, b7.trans a7, b8, fun j => (b9 j).trans (a9 j), ?_, ?_,
          b12, b13⟩
  · intro j hj
    have hpj : (placedIds p.1).count j = 0 := Nat.le_zero.mp (hj ▸ a9 j)
    exact (b10 j hpj).trans (a10 j hj)
  · intro r hr
    rcases b11 r hr with h | h
    · exact a11 r h
    · right
      have := a9 r
      omega

/-- One station-service step satisfies the phase summary. -/
theorem stationStep_StepOut (s : ConveyorSystem) (R : List ℕ) (now : Time)
    (name : String)
    (hst : (s.stations.map Prod.fst).Nodup)
    (hwz : (s.waiting_zones.map Prod.fst).Nodup)
    (hids : ArenaIds s)
    (hp1 : ∀ j, (placedIds s).count j ≤ 1)
    (hR0 : ∀ r ∈ R, (placedIds s).count r = 0)
    (hRn : R.Nodup) :
    StepOut s R (stationStep now (s, R) name) := by
  obtain ⟨e1, e2, e3, e4, e5, e6, e7, e8, e9, e10⟩ :=
    stationStep_effects s R now name hst hwz hids hp1
  obtain ⟨n1, n2⟩ := stationStep_released_new s R now name hst hwz hids hp1
  refine ⟨e1, e2, e3, e4, e5, e6, e7,
          stationStep_arena s R now name hst hwz hp1 hids, e8, e9, e10, ?_, ?_⟩
  · intro r hr
    by_cases hrR : r ∈ R
    · have h1 := e8 r
      have h2 := hR0 r hrR
      omega
    · exact n1 r hr hrR
  · rcases n2 with h | ⟨b2, h, hpos⟩
    · rw [h]
      exact hRn
    · rw [h]
      have hb2 : b2 ∉ R := by
        intro hc
        have h1 := hR0 b2 hc
        omega
      simp [List.nodup_append, hRn, hb2]

/-- The whole station-service phase (step 2 of `simulate_tick`) satisfies the
phase summary. -/
theorem phase2_fold (names : List String) (s : ConveyorSystem) (R : List ℕ)
    (now : Time)
    (hst : (s.stations.map Prod.fst).Nodup)
    (hwz : (s.waiting_zones.map Prod.fst).Nodup)
    (hids : ArenaIds s)
    (hp1 : ∀ j, (placedIds s).count j ≤ 1)
    (hR0 : ∀ r ∈ R, (placedIds s).count r = 0)
    (hRn : R.Nodup) :
    StepOut s R (names.foldl (stationStep now) (s, R)) := by
  induction names generalizing s R with
  | nil =>
    exact ⟨rfl, rfl, rfl, rfl, rfl, rfl, rfl, hids, fun j => Nat.le_refl _,
           fun j _ => rfl, fun r hr => Or.inl hr, hR0, hRn⟩
  | cons name names ih =>
    rw [List.foldl_cons]
    have hstep := stationStep_StepOut s R now name hst hwz hids hp1 hR0 hRn
    obtain ⟨a1, a2, a3, a4, a5, a6, a7, a8, a9, a10, a11, a12, a13⟩ := hstep
    have hrec := ih (stationStep now (s, R) name).1
      (stationStep now (s, R) name).2
      (a6 ▸ hst) (a7 ▸ hwz) a8
      (fun j => le_trans (a9 j) (hp1 j)) a12 a13
    rw [Prod.mk.eta] at hrec
    exact stepOut_trans
      ⟨a1, a2, a3, a4, a5, a6, a7, a8, a9, a10, a11, a12, a13⟩ hrec

/-- The downstream-routing phase (step 3 of `simulate_tick`): structure is
preserved, placement multiplicity stays at most one, and every basket not in
the released list keeps its placement bound, active/finished membership and
arena entry. -/
theorem phase3_fold (R : List ℕ) (s : ConveyorSystem) (now : Time)
    (hst : (s.stations.map Prod.fst).Nodup)
    (hwz : (s.waiting_zones.map Prod.fst).Nodup)
    (hids : ArenaIds s)
    (hp1 : ∀ j, (placedIds s).count j ≤ 1)
    (hR0 : ∀ r ∈ R, (placedIds s).count r = 0)
    (hRn : R.Nodup) :
    (R.foldl (fun s bid => (detect_and_manage_collision s bid now).1) s).station_names
        = s.station_names ∧
    (R.foldl (fun s bid => (detect_and_manage_collision s bid now).1) s).entry_queue
        = s.entry_queue ∧
    keysOf (R.foldl (fun s bid => (detect_and_manage_collision s bid now).1) s)
        = keysOf s ∧
    ((R.foldl (fun s bid => (detect_and_manage_collision s bid now).1) s).stations.map
        Prod.fst) = s.stations.map Prod.fst ∧
    ((R.foldl (fun s bid => (detect_and_manage_collision s bid now).1) s).waiting_zones.map
        Prod.fst) = s.waiting_zones.map Prod.fst ∧
    ArenaIds (R.foldl (fun s bid => (detect_and_manage_collision s bid now).1) s) ∧
    (∀ j, (placedIds
        (R.foldl (fun s bid => (detect_and_manage_collision s bid now).1) s)).count j ≤ 1) ∧
    (∀ j, j ∉ R →
      ((placedIds
          (R.foldl (fun s bid => (detect_and_manage_collision s bid now).1) s)).count j
          ≤ (placedIds s).count j ∧
       (R.foldl (fun s bid => (detect_and_manage_collision s bid now).1) s).active_baskets.count j
          = s.active_baskets.count j ∧
       (R.foldl (fun s bid => (detect_and_manage_collision s bid now).1) s).finished_baskets.count j
          = s.finished_baskets.count j ∧
       ((placedIds s).count j = 0 →
         lookA (R.foldl (fun s bid => (detect_and_manage_collision s bid now).1) s).baskets j
           = lookA s.baskets j))) := by
  induction R generalizing s with
  | nil =>
    exact ⟨rfl, rfl, rfl, rfl, rfl, hids, hp1,
           fun j _ => ⟨Nat.le_refl _, rfl, rfl, fun _ => rfl⟩⟩
  | cons r R ih =>
    rw [List.foldl_cons]
    have hr0 : (placedIds s).count r = 0 := hR0 r (List.mem_cons_self r R)
    have hshape := detect_shape s r now
    have harena := detect_arena s r now hids
    have hp1' : ∀ j, (placedIds (detect_and_manage_collision s r now).1).count j ≤ 1 := by
      intro j
      by_cases hjr : j = r
      · subst hjr
        exact detect_placed_bid s j now hst hwz hids hr0
      · have := (detect_effects s r now hst hwz hids j hjr).1
        have := hp1 j
        omega
    have hR0' : ∀ r2 ∈ R, (placedIds (detect_and_manage_collision s r now).1).count r2 = 0 := by
      intro r2 hr2
      have hne : r2 ≠ r := by
        intro hc
        subst hc
        exact (List.nodup_cons.mp hRn).1 hr2
      have h1 := (detect_effects s r now hst hwz hids r2 hne).1
      have h2 := hR0 r2 (List.mem_cons_of_mem r hr2)
      omega
    have hrec := ih (detect_and_manage_collision s r now).1
      (hshape.2.2.2.1 ▸ hst) (hshape.2.2.2.2 ▸ hwz) harena hp1' hR0'
      (List.nodup_cons.mp hRn).2
    refine ⟨hrec.1.trans hshape.1, hrec.2.1.trans hshape.2.1,
            hrec.2.2.1.trans hshape.2.2.1,
            hrec.2.2.2.1.trans hshape.2.2.2.1,
            hrec.2.2.2.2.1.trans hshape.2.2.2.2,
            hrec.2.2.2.2.2.1, hrec.2.2.2.2.2.2.1, ?_⟩
    intro j hj
    have hjr : j ≠ r := fun hc => hj (hc ▸ List.mem_cons_self r R)
    have hjR : j ∉ R := fun hc => hj (List.mem_cons_of_mem r hc)
    have heff := detect_effects s r now hst hwz hids j hjr
    have hih := hrec.2.2.2.2.2.2.2 j hjR
    refine ⟨le_trans hih.1 heff.1, hih.2.1.trans heff.2.1,
            hih.2.2.1.trans heff.2.2.1, ?_⟩
    intro hj0
    have hp0' : (placedIds (detect_and_manage_collision s r now).1).count j = 0 := by
      have := heff.1
      omega
    exact (hih.2.2.2 hp0').trans heff.2.2.2

/-- One tick preserves well-formedness, and a basket that is tracked as active
but placed in no container (entry queue, station, waiting zone) is untouched
by the tick: still unplaced, still active, not finished, arena entry
unchanged. -/
theorem tick_stuck (s : ConveyorSystem) (now : Time) (j0 : ℕ)
    (hst : (s.stations.map Prod.fst).Nodup)
    (hwz : (s.waiting_zones.map Prod.fst).Nodup)
    (hids : ArenaIds s)
    (hp1 : ∀ j, (placedIds s).count j ≤ 1)
    (hp0 : (placedIds s).count j0 = 0) :
    ((simulate_tick s now).stations.map Prod.fst).Nodup ∧
    ((simulate_tick s now).waiting_zones.map Prod.fst).Nodup ∧
    ArenaIds (simulate_tick s now) ∧
    (∀ j, (placedIds (simulate_tick s now)).count j ≤ 1) ∧
    (placedIds (simulate_tick s now)).count j0 = 0 ∧
    (simulate_tick s now).active_baskets.count j0 = s.active_baskets.count j0 ∧
    (simulate_tick s now).finished_baskets.count j0 = s.finished_baskets.count j0 ∧
    lookA (simulate_tick s now).baskets j0 = lookA s.baskets j0 := by
  obtain ⟨e1, e2, e3, e4, e5, e6, e7⟩ := entryPhase_effects s now hst hwz hids hp1
  obtain ⟨f1, f2, f3, f4⟩ := e7 j0 hp0
  have hst1 : ((entryPhase s now).stations.map Prod.fst).Nodup := e3 ▸ hst
  have hwz1 : ((entryPhase s now).waiting_zones.map Prod.fst).Nodup := e4 ▸ hwz
  obtain ⟨a1, a2, a3, a4, a5, a6, a7, a8, a9, a10, a11, a12, a13⟩ :=
    phase2_fold (entryPhase s now).station_names (entryPhase s now) [] now
      hst1 hwz1 e5 e6 (by intro r hr; exact absurd hr (List.not_mem_nil r))
      List.nodup_nil
  have hj0R : j0 ∉ ((entryPhase s now).station_names.foldl (stationStep now)
      (entryPhase s now, [])).2 := by
    intro hc
    rcases a11 j0 hc with h | h
    · exact List.not_mem_nil j0 h
    · omega
  have hp12 : ∀ j, (placedIds ((entryPhase s now).station_names.foldl
      (stationStep now) (entryPhase s now, [])).1).count j ≤ 1 :=
    fun j => le_trans (a9 j) (e6 j)
  obtain ⟨c1, c2, c3, c4, c5, c6, c7, c8⟩ :=
    phase3_fold ((entryPhase s now).station_names.foldl (stationStep now)
        (entryPhase s now, [])).2
      ((entryPhase s now).station_names.foldl (stationStep now)
        (entryPhase s now, [])).1 now
      (a6 ▸ hst1) (a7 ▸ hwz1) a8 hp12 a12 a13
  have htick : simulate_tick s now
      = ((entryPhase s now).station_names.foldl (stationStep now)
          (entryPhase s now, [])).2.foldl
          (fun s bid => (detect_and_manage_collision s bid now).1)
          ((entryPhase s now).station_names.foldl (stationStep now)
            (entryPhase s now, [])).1 := rfl
  obtain ⟨d1, d2, d3, d4⟩ := c8 j0 hj0R
  rw [htick]
  have hplaced2 : (placedIds ((entryPhase s now).station_names.foldl
      (stationStep now) (entryPhase s now, [])).1).count j0 = 0 := by
    have := a9 j0
    omega
  refine ⟨c4 ▸ (a6 ▸ hst1), c5 ▸ (a7 ▸ hwz1), c6, c7, ?_, ?_, ?_, ?_⟩
  · omega
  · rw [d2, a3]
    exact f2
  · rw [d3, a4]
    exact f3
  · rw [d4 hplaced2, a10 j0 f1]
    exact f4

/-- C5: when a basket's next target does not name a configured station, the
routing decision emits an `Error` event and returns "Error" while changing
nothing else (the basket silently stays in `active_baskets`, in no
container); and a basket in that stuck situation — active, placed nowhere —
is never touched again by any number of subsequent ticks, while the
simulation continues servicing the others (the tick function keeps running;
the stuck basket's arena record, activity and non-finished status are
invariant). -/
theorem routing_error_stuck :
    (∀ (s : ConveyorSystem) (bid : ℕ) (b : Basket) (target : String) (now : Time),
      lookA s.baskets bid = some b → b.next_station = some target →
      lookA s.stations target = none →
      detect_and_manage_collision s bid now
        = ({ s with log := s.log ++ [Event.err bid target] }, "Error")) ∧
    (∀ (s : ConveyorSystem) (j0 : ℕ) (ts : List Time),
      (s.stations.map Prod.fst).Nodup →
      (s.waiting_zones.map Prod.fst).Nodup →
      ArenaIds s →
      (∀ j, (placedIds s).count j ≤ 1) →
      (placedIds s).count j0 = 0 →
      0 < s.active_baskets.count j0 →
      s.finished_baskets.count j0 = 0 →
      ((placedIds (runTicks s ts)).count j0 = 0 ∧
       0 < (runTicks s ts).active_baskets.count j0 ∧
       (runTicks s ts).finished_baskets.count j0 = 0 ∧
       lookA (runTicks s ts).baskets j0 = lookA s.baskets j0)) := by
  constructor
  · intro s bid b target now hb hns hstl
    exact detect_eq_err_station hb hns hstl
  · intro s j0 ts
    induction ts generalizing s with
    | nil =>
      intro _ _ _ _ hp0 hact hfin
      exact ⟨hp0, hact, hfin, rfl⟩
    | cons t ts ih =>
      intro hst hwz hids hp1 hp0 hact hfin
      obtain ⟨w1, w2, w3, w4, w5, w6, w7, w8⟩ :=
        tick_stuck s t j0 hst hwz hids hp1 hp0
      have hrec := ih (simulate_tick s t) w1 w2 w3 w4 w5
        (w6 ▸ hact) (w7 ▸ hfin)
      refine ⟨hrec.1, hrec.2.1, hrec.2.2.1, hrec.2.2.2.trans w8⟩

/-- The state reached after admitting basket 9 (whose route names the
unconfigured station `"Z"`) from the entry queue: the tick emits an `Error`
event and leaves the basket stuck. -/
def erroredRun : ConveyorSystem :=
  simulate_tick (initialize_baskets (ConveyorSystem.init [("A", 1)] 1) [(9, ["Z"])] 0) 0

theorem routing_error_stuck_witness :
    (detect_and_manage_collision erroredRun 9 5
      = ({ erroredRun with log := erroredRun.log ++ [Event.err 9 "Z"] }, "Error")) ∧
    ((placedIds (runTicks erroredRun [5, 6])).count 9 = 0 ∧
     0 < (runTicks erroredRun [5, 6]).active_baskets.count 9 ∧
     (runTicks erroredRun [5, 6]).finished_baskets.count 9 = 0 ∧
     lookA (runTicks erroredRun [5, 6]).baskets 9 = lookA erroredRun.baskets 9) := by
  constructor
  · exact routing_error_stuck.1 erroredRun 9 (Basket.init 9 ["Z"] 0) "Z" 5
      (by decide) (by decide) (by decide)
  · exact routing_error_stuck.2 erroredRun 9 [5, 6] (by decide) (by decide)
      (by decide)
      (by
        intro j
        rw [show placedIds erroredRun = [] from by decide]
        simp)
      (by decide) (by decide) (by decide)

/-- The reachable-state invariant of the scheduler: the station/zone maps have
distinct keys, the arena is id-consistent, every basket sits in at most one
placement container, appears at most once in `active_baskets`, every placed
basket is tracked as active, and for every id the active and finished
multiplicities add up to its multiplicity among all created baskets. -/
structure SysInv (s : ConveyorSystem) : Prop where
  st_nodup : (s.stations.map Prod.fst).Nodup
  wz_nodup : (s.waiting_zones.map Prod.fst).Nodup
  arena : ArenaIds s
  placed1 : ∀ j, (placedIds s).count j ≤ 1
  active1 : ∀ j, s.active_baskets.count j ≤ 1
  placed_act : ∀ j, 0 < (placedIds s).count j → 0 < s.active_baskets.count j
  total : ∀ j, s.active_baskets.count j + s.finished_baskets.count j
    = (keysOf s).count j

/-- The routing decision either leaves active/finished untouched, or (in the
`Finished` branch) moves exactly the routed basket from active to finished
while leaving every placement container unchanged. -/
theorem detect_af (s : ConveyorSystem) (bid : ℕ) (now : Time) :
    ((detect_and_manage_collision s bid now).1.active_baskets = s.active_baskets ∧
     (detect_and_manage_collision s bid now).1.finished_baskets = s.finished_baskets) ∨
    ((detect_and_manage_collision s bid now).1.active_baskets
        = s.active_baskets.erase bid ∧
     (detect_and_manage_collision s bid now).1.finished_baskets
        = s.finished_baskets ++ [bid] ∧
     placedIds (detect_and_manage_collision s bid now).1 = placedIds s) := by
  rcases hb : lookA s.baskets bid with _ | b
  · rw [detect_eq_missing hb]
    exact Or.inl ⟨rfl, rfl⟩
  rcases hns : b.next_station with _ | target
  · rw [detect_eq_finished hb hns]
    exact Or.inr ⟨rfl, rfl, rfl⟩
  rcases hstl : lookA s.stations target with _ | st
  · rw [detect_eq_err_station hb hns hstl]
    exact Or.inl ⟨rfl, rfl⟩
  rcases hwzl : lookA s.waiting_zones ("Waiting_" ++ target) with _ | wz
  · rw [detect_eq_err_zone hb hns hstl hwzl]
    exact Or.inl ⟨rfl, rfl⟩
  rcases hav : st.is_available with _ | _
  · rcases hfull : wz.is_full with _ | _
    · rw [detect_eq_waiting hb hns hstl hwzl hav hfull]
      exact Or.inl ⟨rfl, rfl⟩
    · rw [detect_eq_halted hb hns hstl hwzl hav hfull]
      exact Or.inl ⟨rfl, rfl⟩
  · rw [detect_eq_loaded hb hns hstl hwzl hav]
    exact Or.inl ⟨rfl, rfl⟩

/-- The routing decision preserves the system invariant when applied to a
basket that is active and currently placed nowhere (exactly the situation of
every basket it is applied to in `simulate_tick`). -/
theorem detect_inv (s : ConveyorSystem) (bid : ℕ) (now : Time)
    (hinv : SysInv s)
    (hact : 0 < s.active_baskets.count bid)
    (hnp : (placedIds s).count bid = 0) :
    SysInv (detect_and_manage_collision s bid now).1 := by
  obtain ⟨hst, hwz, hids, hp1, ha1, hpa, hsum⟩ := hinv
  have hshape := detect_shape s bid now
  refine ⟨hshape.2.2.2.1 ▸ hst, hshape.2.2.2.2 ▸ hwz,
          detect_arena s bid now hids, ?_, ?_, ?_, ?_⟩
  · intro j
    by_cases hj : j = bid
    · subst hj
      exact detect_placed_bid s j now hst hwz hids hnp
    · have := (detect_effects s bid now hst hwz hids j hj).1
      have := hp1 j
      omega
  · intro j
    rcases detect_af s bid now with ⟨h1, _⟩ | ⟨h1, _, _⟩
    · rw [h1]
      exact ha1 j
    · rw [h1, List.count_erase]
      have := ha1 j
      omega
  · intro j hj
    by_cases hjb : j = bid
    · subst hjb
      rcases detect_af s j now with ⟨h1, _⟩ | ⟨h1, _, h3⟩
      · rw [h1]
        exact hact
      · rw [h3] at hj
        omega
    · have heff := (detect_effects s bid now hst hwz hids j hjb)
      have h1 := heff.1
      have h2 := heff.2.1
      rw [h2]
      exact hpa j (by omega)
  · intro j
    have hkeys : (keysOf (detect_and_manage_collision s bid now).1).count j
        = (keysOf s).count j := by rw [hshape.2.2.1]
    rw [hkeys]
    rcases detect_af s bid now with ⟨h1, h2⟩ | ⟨h1, h2, _⟩
    · rw [h1, h2]
      exact hsum j
    · rw [h1, h2, List.count_erase, List.count_append]
      have h3 := hsum j
      have h4 := ha1 j
      by_cases hjb : j = bid
      · subst hjb
        simp [List.count_cons]
        omega
      · have : ([bid].count j) = 0 := by
          simp [List.count_cons, Ne.symm hjb]
        simp only [beq_iff_eq] at *
        simp [hjb, Ne.symm hjb, this]
        omega

/-- Entry admission preserves the system invariant. -/
theorem entryPhase_inv (s : ConveyorSystem) (now : Time) (hinv : SysInv s) :
    SysInv (entryPhase s now) := by
  obtain ⟨hst, hwz, hids, hp1, ha1, hpa, hsum⟩ := hinv
  rcases hq : s.entry_queue with _ | ⟨e, rest⟩
  · rw [entryPhase_eq_empty hq]
    exact ⟨hst, hwz, hids, hp1, ha1, hpa, hsum⟩
  rcases hh : s.is_entry_halted with _ | _
  case cons.true =>
    rw [entryPhase_eq_halted hq hh]
    exact ⟨hst, hwz, hids, hp1, ha1, hpa, hsum⟩
  case cons.false =>
  rw [entryPhase_eq_pop hq hh]
  set s1 : ConveyorSystem :=
    { s with entry_queue := rest, log := s.log ++ [Event.entry e] } with hs1
  have hplace1 : ∀ j, (placedIds s1).count j
      + (if e = j then 1 else 0) = (placedIds s).count j := by
    intro j
    simp only [placedIds, hs1, hq, List.count_append, List.count_cons, beq_iff_eq]
    omega
  have hinv1 : SysInv s1 := by
    refine ⟨hst, hwz, hids, ?_, ha1, ?_, hsum⟩
    · intro j
      have h1 := hplace1 j
      have h2 := hp1 j
      omega
    · intro j hj
      apply hpa j
      have h1 := hplace1 j
      omega
  have hepos : 0 < (placedIds s).count e := by
    apply List.count_pos_iff.mpr
    simp [placedIds, hq]
  have hact : 0 < s1.active_baskets.count e := hpa e hepos
  have hnp : (placedIds s1).count e = 0 := by
    have h1 := hplace1 e
    have h2 := hp1 e
    simp at h1
    omega
  exact detect_inv s1 e now hinv1 hact hnp

/-- The downstream-routing phase preserves the system invariant, given that
the released ids are pairwise distinct, each active and placed nowhere. -/
theorem phase3_inv (R : List ℕ) (s : ConveyorSystem) (now : Time)
    (hinv : SysInv s)
    (hR : ∀ r ∈ R, (placedIds s).count r = 0 ∧ 0 < s.active_baskets.count r)
    (hRn : R.Nodup) :
    SysInv (R.foldl (fun s bid => (detect_and_manage_collision s bid now).1) s) := by
  induction R generalizing s with
  | nil => exact hinv
  | cons r R ih =>
    rw [List.foldl_cons]
    have hr := hR r (List.mem_cons_self r R)
    have hinv' := detect_inv s r now hinv hr.2 hr.1
    apply ih _ hinv' _ (List.nodup_cons.mp hRn).2
    intro r2 hr2
    have hne : r2 ≠ r := by
      intro hc
      subst hc
      exact (List.nodup_cons.mp hRn).1 hr2
    have heff := detect_effects s r now hinv.st_nodup hinv.wz_nodup hinv.arena r2 hne
    have h2 := (hR r2 (List.mem_cons_of_mem r hr2))
    constructor
    · have := heff.1
      omega
    · rw [heff.2.1]
      exact h2.2

/-- One tick preserves the system invariant, the key multiset and the station
order. -/
theorem tick_inv (s : ConveyorSystem) (now : Time) (hinv : SysInv s) :
    SysInv (simulate_tick s now) ∧
    keysOf (simulate_tick s now) = keysOf s ∧
    (simulate_tick s now).station_names = s.station_names := by
  have hinv1 := entryPhase_inv s now hinv
  obtain ⟨e1, e2, e3, e4, e5, e6, e7⟩ :=
    entryPhase_effects s now hinv.st_nodup hinv.wz_nodup hinv.arena hinv.placed1
  obtain ⟨a1, a2, a3, a4, a5, a6, a7, a8, a9, a10, a11, a12, a13⟩ :=
    phase2_fold (entryPhase s now).station_names (entryPhase s now) [] now
      hinv1.st_nodup hinv1.wz_nodup hinv1.arena hinv1.placed1
      (by intro r hr; exact absurd hr (List.not_mem_nil r)) List.nodup_nil
  have hinv2 : SysInv ((entryPhase s now).station_names.foldl (stationStep now)
      (entryPhase s now, [])).1 := by
    refine ⟨a6 ▸ hinv1.st_nodup, a7 ▸ hinv1.wz_nodup, a8, ?_, ?_, ?_, ?_⟩
    · intro j
      exact le_trans (a9 j) (hinv1.placed1 j)
    · intro j
      rw [a3]
      exact hinv1.active1 j
    · intro j hj
      rw [a3]
      apply hinv1.placed_act j
      have := a9 j
      omega
    · intro j
      rw [a3, a4, a5]
      exact hinv1.total j
  have hRfacts : ∀ r ∈ ((entryPhase s now).station_names.foldl (stationStep now)
      (entryPhase s now, [])).2,
      (placedIds ((entryPhase s now).station_names.foldl (stationStep now)
        (entryPhase s now, [])).1).count r = 0 ∧
      0 < ((entryPhase s now).station_names.foldl (stationStep now)
        (entryPhase s now, [])).1.active_baskets.count r := by
    intro r hr
    refine ⟨a12 r hr, ?_⟩
    rw [a3]
    rcases a11 r hr with h | h
    · exact absurd h (List.not_mem_nil r)
    · exact hinv1.placed_act r h
  have hinv3 := phase3_inv ((entryPhase s now).station_names.foldl (stationStep now)
      (entryPhase s now, [])).2
    ((entryPhase s now).station_names.foldl (stationStep now)
      (entryPhase s now, [])).1 now hinv2 hRfacts a13
  obtain ⟨c1, c2, c3, c4, c5, c6, c7, c8⟩ :=
    phase3_fold ((entryPhase s now).station_names.foldl (stationStep now)
        (entryPhase s now, [])).2
      ((entryPhase s now).station_names.foldl (stationStep now)
        (entryPhase s now, [])).1 now
      hinv2.st_nodup hinv2.wz_nodup hinv2.arena hinv2.placed1 a12 a13
  have htick : simulate_tick s now
      = ((entryPhase s now).station_names.foldl (stationStep now)
          (entryPhase s now, [])).2.foldl
          (fun s bid => (detect_and_manage_collision s bid now).1)
          ((entryPhase s now).station_names.foldl (stationStep now)
            (entryPhase s now, [])).1 := rfl
  rw [htick]
  exact ⟨hinv3, (c3.trans a5).trans e2, (c1.trans a1).trans e1⟩

theorem initialize_fold_fields (data : List (ℕ × List String)) (now : Time) :
    ∀ s : ConveyorSystem,
    (data.foldl (fun s p =>
      let b := Basket.init p.1 p.2 now
      { s with entry_queue := s.entry_queue ++ [p.1],
               active_baskets := s.active_baskets ++ [p.1],
               baskets := s.baskets ++ [(p.1, b)] }) s).entry_queue
      = s.entry_queue ++ data.map Prod.fst ∧
    (data.foldl (fun s p =>
      let b := Basket.init p.1 p.2 now
      { s with entry_queue := s.entry_queue ++ [p.1],
               active_baskets := s.active_baskets ++ [p.1],
               baskets := s.baskets ++ [(p.1, b)] }) s).active_baskets
      = s.active_baskets ++ data.map Prod.fst ∧
    (data.foldl (fun s p =>
      let b := Basket.init p.1 p.2 now
      { s with entry_queue := s.entry_queue ++ [p.1],
               active_baskets := s.active_baskets ++ [p.1],
               baskets := s.baskets ++ [(p.1, b)] }) s).baskets
      = s.baskets ++ data.map (fun p => (p.1, Basket.init p.1 p.2 now)) ∧
    (data.foldl (fun s p =>
      let b := Basket.init p.1 p.2 now
      { s with entry_queue := s.entry_queue ++ [p.1],
               active_baskets := s.active_baskets ++ [p.1],
               baskets := s.baskets ++ [(p.1, b)] }) s).finished_baskets
      = s.finished_baskets ∧
    (data.foldl (fun s p =>
      let b := Basket.init p.1 p.2 now
      { s with entry_queue := s.entry_queue ++ [p.1],
               active_baskets := s.active_baskets ++ [p.1],
               baskets := s.baskets ++ [(p.1, b)] }) s).stations = s.stations ∧
    (data.foldl (fun s p =>
      let b := Basket.init p.1 p.2 now
      { s with entry_queue := s.entry_queue ++ [p.1],
               active_baskets := s.active_baskets ++ [p.1],
               baskets := s.baskets ++ [(p.1, b)] }) s).waiting_zones
      = s.waiting_zones ∧
    (data.foldl (fun s p =>
      let b := Basket.init p.1 p.2 now
      { s with entry_queue := s.entry_queue ++ [p.1],
               active_baskets := s.active_baskets ++ [p.1],
               baskets := s.baskets ++ [(p.1, b)] }) s).station_names
      = s.station_names := by
  induction data with
  | nil =>
    intro s
    simp
  | cons d data ih =>
    intro s
    rw [List.foldl_cons]
    obtain ⟨i1, i2, i3, i4, i5, i6, i7⟩ := ih
      { s with entry_queue := s.entry_queue ++ [d.1],
               active_baskets := s.active_baskets ++ [d.1],
               baskets := s.baskets ++ [(d.1, Basket.init d.1 d.2 now)] }
    refine ⟨?_, ?_, ?_, i4, i5, i6, i7⟩
    · rw [i1]
      simp
    · rw [i2]
      simp
    · rw [i3]
      simp

theorem initialize_fields (s : ConveyorSystem) (data : List (ℕ × List String))
    (now : Time) :
    (initialize_baskets s data now).entry_queue
      = s.entry_queue ++ data.map Prod.fst ∧
    (initialize_baskets s data now).active_baskets
      = s.active_baskets ++ data.map Prod.fst ∧
    (initialize_baskets s data now).baskets
      = s.baskets ++ data.map (fun p => (p.1, Basket.init p.1 p.2 now)) ∧
    (initialize_baskets s data now).finished_baskets = s.finished_baskets ∧
    (initialize_baskets s data now).stations = s.stations ∧
    (initialize_baskets s data now).waiting_zones = s.waiting_zones ∧
    (initialize_baskets s data now).station_names = s.station_names := by
  have h := initialize_fold_fields data now s
  unfold initialize_baskets
  exact h

theorem occIds_init (cfg : List (String × Time)) :
    occIds (cfg.map (fun p => (p.1, Station.init p.1 p.2))) = [] := by
  induction cfg with
  | nil => rfl
  | cons c cfg ih =>
    simp only [List.map_cons, occIds, List.filterMap_cons, Station.init] at ih ⊢
    exact ih

theorem zoneIds_init (cfg : List (String × Time)) (cap : ℕ) :
    zoneIds (cfg.map (fun p =>
      ("Waiting_" ++ p.1, WaitingZone.init ("Waiting_" ++ p.1) cap))) = [] := by
  induction cfg with
  | nil => rfl
  | cons c cfg ih => simpa [zoneIds, WaitingZone.init] using ih

/-- A freshly initialized system (with distinct station names and distinct
item ids, i.e. genuine Python dict keys and distinct objects) satisfies the
system invariant, and its created-keys list is exactly the item ids. -/
theorem init_inv (cfg : List (String × Time)) (cap : ℕ)
    (data : List (ℕ × List String)) (t0 : Time)
    (hcfg : (cfg.map Prod.fst).Nodup) (hids : (data.map Prod.fst).Nodup) :
    SysInv (initialize_baskets (ConveyorSystem.init cfg cap) data t0) ∧
    keysOf (initialize_baskets (ConveyorSystem.init cfg cap) data t0)
      = data.map Prod.fst := by
  obtain ⟨i1, i2, i3, i4, i5, i6, i7⟩ :=
    initialize_fields (ConveyorSystem.init cfg cap) data t0
  have hkeys : keysOf (initialize_baskets (ConveyorSystem.init cfg cap) data t0)
      = data.map Prod.fst := by
    unfold keysOf
    rw [i3]
    show (data.map (fun p => (p.1, Basket.init p.1 p.2 t0))).map Prod.fst
      = data.map Prod.fst
    rw [List.map_map]
    rfl
  have hplaced : placedIds (initialize_baskets (ConveyorSystem.init cfg cap) data t0)
      = data.map Prod.fst := by
    unfold placedIds
    rw [i1, i5, i6]
    rw [show (ConveyorSystem.init cfg cap).stations
        = cfg.map (fun p => (p.1, Station.init p.1 p.2)) from rfl]
    rw [show (ConveyorSystem.init cfg cap).waiting_zones
        = cfg.map (fun p =>
            ("Waiting_" ++ p.1, WaitingZone.init ("Waiting_" ++ p.1) cap)) from rfl]
    rw [show (ConveyorSystem.init cfg cap).entry_queue = [] from rfl]
    rw [occIds_init, zoneIds_init]
    simp
  have hcount1 : ∀ j, (data.map Prod.fst).count j ≤ 1 :=
    List.nodup_iff_count_le_one.mp hids
  refine ⟨⟨?_, ?_, ?_, ?_, ?_, ?_, ?_⟩, hkeys⟩
  · rw [i5]
    show ((cfg.map (fun p => (p.1, Station.init p.1 p.2))).map Prod.fst).Nodup
    rw [List.map_map]
    exact hcfg
  · rw [i6]
    show ((cfg.map (fun p =>
        ("Waiting_" ++ p.1, WaitingZone.init ("Waiting_" ++ p.1) cap))).map
        Prod.fst).Nodup
    rw [List.map_map]
    show (cfg.map (fun p => "Waiting_" ++ p.1)).Nodup
    have : cfg.map (fun p => "Waiting_" ++ p.1)
        = (cfg.map Prod.fst).map (fun n => "Waiting_" ++ n) := by
      rw [List.map_map]
      rfl
    rw [this]
    apply List.Nodup.map _ hcfg
    intro a b h
    simp only at h
    have h2 : ("Waiting_" ++ a).data = ("Waiting_" ++ b).data := by rw [h]
    simp only [String.data_append] at h2
    exact String.ext (List.append_cancel_left h2)
  · intro p hp
    rw [i3] at hp
    rcases List.mem_append.mp hp with h | h
    · exact absurd h (List.not_mem_nil p)
    · obtain ⟨q, _, hq⟩ := List.mem_map.mp h
      rw [← hq]
      rfl
  · intro j
    rw [hplaced]
    exact hcount1 j
  · intro j
    rw [i2]
    show (([] : List ℕ) ++ data.map Prod.fst).count j ≤ 1
    simpa using hcount1 j
  · intro j hj
    rw [i2]
    rw [hplaced] at hj
    show 0 < (([] : List ℕ) ++ data.map Prod.fst).count j
    simpa using hj
  · intro j
    rw [i2, i4, hkeys]
    show (([] : List ℕ) ++ data.map Prod.fst).count j
        + ([] : List ℕ).count j = (data.map Prod.fst).count j
    simp

/-- The invariant and the created-key list persist through any run. -/
theorem run_inv (s : ConveyorSystem) (ts : List Time) (hinv : SysInv s) :
    SysInv (runTicks s ts) ∧ keysOf (runTicks s ts) = keysOf s := by
  induction ts generalizing s with
  | nil => exact ⟨hinv, rfl⟩
  | cons t ts ih =>
    have h1 := tick_inv s t hinv
    have h2 := ih (simulate_tick s t) h1.1
    exact ⟨h2.1, h2.2.trans h1.2.1⟩

/-- The system invariant implies the conservation property as the spec states
it: entry + in-flight + completed = all created, with multiplicity. -/
theorem conservation_of_inv (s : ConveyorSystem) (hinv : SysInv s) :
    conservationHolds s := by
  unfold conservationHolds inFlight
  refine Multiset.ext.mpr fun j => ?_
  simp only [Multiset.count_add, Multiset.coe_count]
  have hentry_le : s.entry_queue.count j ≤ (placedIds s).count j := by
    simp [placedIds, List.count_append]
  by_cases hj : j ∈ s.entry_queue
  · have h1 : s.entry_queue.count j = 1 := by
      have := List.count_pos_iff.mpr hj
      have := hinv.placed1 j
      omega
    have h2 : (s.active_baskets.filter (fun bid => decide (bid ∉ s.entry_queue))).count j
        = 0 := by
      apply List.count_eq_zero.mpr
      intro hc
      have := List.mem_filter.mp hc
      simp at this
      exact this.2 hj
    have h3 : 0 < s.active_baskets.count j := by
      apply hinv.placed_act j
      omega
    have h4 := hinv.active1 j
    have h5 := hinv.total j
    omega
  · have h1 : s.entry_queue.count j = 0 := List.count_eq_zero.mpr hj
    have h2 : (s.active_baskets.filter (fun bid => decide (bid ∉ s.entry_queue))).count j
        = s.active_baskets.count j := by
      apply List.count_filter
      simpa using hj
    have h5 := hinv.total j
    omega

/-- C2: conservation.  For every run from a configuration with genuine dict
station keys and distinct item ids, at every tick the entry queue, the
in-flight baskets (tracked active but no longer queued at entry) and the
finished baskets together hold, with multiplicity one each, exactly the
baskets created at initialization: `|entryQueue| + |inFlight| + |finished|`
always equals the total number created, and no basket is counted zero times
or twice. -/
theorem conservation_theorem (cfg : List (String × Time)) (cap : ℕ)
    (data : List (ℕ × List String)) (t0 : Time) (ts : List Time)
    (hcfg : (cfg.map Prod.fst).Nodup) (hids : (data.map Prod.fst).Nodup) :
    conservationHolds
      (runTicks (initialize_baskets (ConveyorSystem.init cfg cap) data t0) ts) ∧
    keysOf (runTicks (initialize_baskets (ConveyorSystem.init cfg cap) data t0) ts)
      = data.map Prod.fst := by
  obtain ⟨hinv0, hkeys0⟩ := init_inv cfg cap data t0 hcfg hids
  obtain ⟨hinv, hkeys⟩ :=
    run_inv (initialize_baskets (ConveyorSystem.init cfg cap) data t0) ts hinv0
  exact ⟨conservation_of_inv _ hinv, hkeys.trans hkeys0⟩

theorem conservation_theorem_witness :
    conservationHolds
      (runTicks (initialize_baskets (ConveyorSystem.init [("A", 2)] 1)
        [(1, ["A"]), (2, ["A"])] 0) [0, 1, 2]) ∧
    keysOf (runTicks (initialize_baskets (ConveyorSystem.init [("A", 2)] 1)
        [(1, ["A"]), (2, ["A"])] 0) [0, 1, 2])
      = [(1, ["A"]), (2, ["A"])].map Prod.fst :=
  conservation_theorem [("A", 2)] 1 [(1, ["A"]), (2, ["A"])] 0 [0, 1, 2]
    (by decide) (by decide)

/-- The buffer-capacity bound: every waiting zone holds at most its capacity. -/
def ZCap (s : ConveyorSystem) : Prop :=
  ∀ p ∈ s.waiting_zones, p.2.queue.length ≤ p.2.capacity

theorem detect_zcap (s : ConveyorSystem) (bid : ℕ) (now : Time)
    (h : ZCap s) : ZCap (detect_and_manage_collision s bid now).1 := by
  rcases hb : lookA s.baskets bid with _ | b
  · rw [detect_eq_missing hb]
    exact h
  rcases hns : b.next_station with _ | target
  · rw [detect_eq_finished hb hns]
    exact h
  rcases hstl : lookA s.stations target with _ | st
  · rw [detect_eq_err_station hb hns hstl]
    exact h
  rcases hwzl : lookA s.waiting_zones ("Waiting_" ++ target) with _ | wz
  · rw [detect_eq_err_zone hb hns hstl hwzl]
    exact h
  rcases hav : st.is_available with _ | _
  · rcases hfull : wz.is_full with _ | _
    · rw [detect_eq_waiting hb hns hstl hwzl hav hfull]
      intro p hp
      rcases mem_updA hp with hp | hp
      · exact h p hp
      · have hwzcap := h _ (lookA_mem hwzl)
        have hlt : wz.queue.length < wz.capacity := by
          simpa [WaitingZone.is_full] using hfull
        rw [hp]
        simp
        omega
    · rw [detect_eq_halted hb hns hstl hwzl hav hfull]
      exact h
  · rw [detect_eq_loaded hb hns hstl hwzl hav]
    exact h

theorem lookA_updA_self {α β : Type} [DecidableEq α] {l : List (α × β)} {k : α}
    {v0 : β} (h : lookA l k = some v0) (v : β) :
    lookA (updA l k v) k = some v := by
  induction l with
  | nil => simp [lookA] at h
  | cons p r ih =>
    show lookA ((if p.1 = k then (k, v) else p) :: updA r k v) k = some v
    by_cases hpk : p.1 = k
    · simp [lookA, hpk]
    · rw [if_neg hpk]
      simp only [lookA, if_neg hpk]
      exact ih (by simpa [lookA, hpk] using h)

/-- The buffer-to-station pull when the zone's front id coincides with the
just-released id (only possible in degenerate states where one id is placed
twice); the freed station then reloads the just-updated basket. -/
theorem stationStep_eq_release_pull_self {s : ConveyorSystem} {R : List ℕ}
    {now : Time} {name : String} {station : Station} {bid : ℕ} {b : Basket}
    {wz : WaitingZone} {rest : List ℕ}
    (hstl : lookA s.stations name = some station)
    (hocc : station.current_basket = some bid)
    (hb : lookA s.baskets bid = some b)
    (hge : station.finish_time ≤ now)
    (hwzl : lookA s.waiting_zones ("Waiting_" ++ name) = some wz)
    (hq : wz.queue = bid :: rest) :
    stationStep now (s, R) name =
      ({ s with
           stations := updA (updA s.stations name
             { station with current_basket := none, is_available := true }) name
             { station with
                 current_basket := some { b.update_route with
                   location := "Out_of_Station_" ++ station.name }.id,
                 is_available := false,
                 finish_time := now + station.processing_time },
           waiting_zones := updA s.waiting_zones ("Waiting_" ++ name)
             { wz with queue := rest },
           baskets := updA (updA s.baskets bid
               { b.update_route with location := "Out_of_Station_" ++ station.name }) bid
             { { b.update_route with location := "Out_of_Station_" ++ station.name } with
                 location := "In_Station_" ++ station.name },
           log := (s.log ++ [Event.signal name bid])
                    ++ [Event.moveFromWaiting bid name] }, R ++ [bid]) := by
  unfold stationStep
  simp only [hstl, hocc, hb, Station.finish_processing, if_pos hge, hwzl,
    WaitingZone.get_next_basket, hq]
  have hself : lookA (updA s.baskets bid
      { b.update_route with location := "Out_of_Station_" ++ station.name }) bid
      = some { b.update_route with location := "Out_of_Station_" ++ station.name } :=
    lookA_updA_self hb _
  simp only [hself, Station.load_basket, if_true]

theorem stationStep_zcap (now : Time) (s : ConveyorSystem) (R : List ℕ)
    (name : String) (h : ZCap s) : ZCap (stationStep now (s, R) name).1 := by
  have hpull : ∀ (wz : WaitingZone) (x : ℕ) (rest : List ℕ),
      lookA s.waiting_zones ("Waiting_" ++ name) = some wz →
      wz.queue = x :: rest →
      ZCap { s with waiting_zones := updA s.waiting_zones ("Waiting_" ++ name) { wz with queue := rest } } := by
    intro wz x rest hwzl hq p hp
    rcases mem_updA hp with hp | hp
    · exact h p hp
    · have hwzcap := h _ (lookA_mem hwzl)
      rw [hp]
      simp only
      rw [hq] at hwzcap
      simp at hwzcap ⊢
      omega
  rcases hstl : lookA s.stations name with _ | station
  · rw [stationStep_eq_noStation hstl]
    exact h
  rcases hocc : station.current_basket with _ | bid
  · rw [stationStep_eq_idle hstl hocc]
    exact h
  rcases hb : lookA s.baskets bid with _ | b
  · rw [stationStep_eq_missingBasket hstl hocc hb]
    exact h
  by_cases hge : station.finish_time ≤ now
  case neg =>
    rw [stationStep_eq_early hstl hocc hb (not_le.mp hge)]
    exact h
  case pos =>
  rcases hwzl : lookA s.waiting_zones ("Waiting_" ++ name) with _ | wz
  · rw [stationStep_eq_release_noZone hstl hocc hb hge hwzl]
    exact h
  rcases hq : wz.queue with _ | ⟨nid, rest⟩
  · rw [stationStep_eq_release_emptyZone hstl hocc hb hge hwzl hq]
    exact h
  by_cases hne : nid = bid
  · subst hne
    rw [stationStep_eq_release_pull_self hstl hocc hb hge hwzl hq]
    exact hpull wz nid rest hwzl hq
  rcases hnb : lookA s.baskets nid with _ | nb
  · rw [stationStep_eq_release_missingNext hstl hocc hb hge hwzl hq hnb]
    exact h
  · rw [stationStep_eq_release_pull hstl hocc hb hge hwzl hq hne hnb]
    exact hpull wz nid rest hwzl hq

theorem entryPhase_zcap (s : ConveyorSystem) (now : Time) (h : ZCap s) :
    ZCap (entryPhase s now) := by
  rcases hq : s.entry_queue with _ | ⟨e, rest⟩
  · rw [entryPhase_eq_empty hq]
    exact h
  rcases hh : s.is_entry_halted with _ | _
  case cons.true =>
    rw [entryPhase_eq_halted hq hh]
    exact h
  case cons.false =>
  rw [entryPhase_eq_pop hq hh]
  exact detect_zcap _ e now h

theorem tick_zcap (s : ConveyorSystem) (now : Time) (h : ZCap s) :
    ZCap (simulate_tick s now) := by
  have h1 := entryPhase_zcap s now h
  have h2 : ∀ (names : List String) (acc : ConveyorSystem × List ℕ),
      ZCap acc.1 → ZCap (names.foldl (stationStep now) acc).1 := by
    intro names
    induction names with
    | nil => exact fun acc h => h
    | cons name names ih =>
      intro acc hacc
      rw [List.foldl_cons]
      have hstep : ZCap (stationStep now acc name).1 := by
        have : acc = (acc.1, acc.2) := rfl
        rw [this]
        exact stationStep_zcap now acc.1 acc.2 name hacc
      exact ih _ hstep
  have h3 : ∀ (R : List ℕ) (s2 : ConveyorSystem), ZCap s2 →
      ZCap (R.foldl (fun s bid => (detect_and_manage_collision s bid now).1) s2) := by
    intro R
    induction R with
    | nil => exact fun s2 h => h
    | cons r R ih =>
      intro s2 hs2
      rw [List.foldl_cons]
      exact ih _ (detect_zcap s2 r now hs2)
  exact h3 _ _ (h2 _ _ h1)

theorem run_zcap (s : ConveyorSystem) (ts : List Time) (h : ZCap s) :
    ZCap (runTicks s ts) := by
  induction ts generalizing s with
  | nil => exact h
  | cons t ts ih => exact ih _ (tick_zcap s t h)

theorem init_zcap (cfg : List (String × Time)) (cap : ℕ)
    (data : List (ℕ × List String)) (t0 : Time) :
    ZCap (initialize_baskets (ConveyorSystem.init cfg cap) data t0) := by
  intro p hp
  rw [(initialize_fields (ConveyorSystem.init cfg cap) data t0).2.2.2.2.2.1] at hp
  have : p ∈ cfg.map (fun q =>
      ("Waiting_" ++ q.1, WaitingZone.init ("Waiting_" ++ q.1) cap)) := hp
  obtain ⟨q, _, hq⟩ := List.mem_map.mp this
  rw [← hq]
  simp [WaitingZone.init]

/-- C9: `add_basket` appends and returns `True` exactly when the queue length
is below capacity, and otherwise returns `False` with the zone unchanged — no
exception in either case (its result type carries no error); `get_next_basket`
removes and returns the oldest entry, or `None` on an empty queue; and in
every run of the system each waiting zone's queue length never exceeds its
capacity. -/
theorem buffer_spec :
    (∀ (wz : WaitingZone) (bid : ℕ) (b : Basket),
      (wz.queue.length < wz.capacity →
        wz.add_basket bid b =
          ({ wz with queue := wz.queue ++ [bid] },
           { b with location := wz.name }, true)) ∧
      (¬ wz.queue.length < wz.capacity →
        wz.add_basket bid b = (wz, b, false))) ∧
    (∀ wz : WaitingZone,
      (wz.queue = [] → wz.get_next_basket = (none, wz)) ∧
      (∀ x xs, wz.queue = x :: xs →
        wz.get_next_basket = (some x, { wz with queue := xs }))) ∧
    (∀ (cfg : List (String × Time)) (cap : ℕ) (data : List (ℕ × List String))
        (t0 : Time) (ts : List Time),
      ZCap (runTicks (initialize_baskets (ConveyorSystem.init cfg cap) data t0) ts)) := by
  refine ⟨?_, ?_, ?_⟩
  · intro wz bid b
    constructor
    · intro hlt
      simp [WaitingZone.add_basket, if_pos hlt]
    · intro hge
      simp [WaitingZone.add_basket, if_neg hge]
  · intro wz
    constructor
    · intro hq
      unfold WaitingZone.get_next_basket
      rw [hq]
    · intro x xs hq
      unfold WaitingZone.get_next_basket
      rw [hq]
  · intro cfg cap data t0 ts
    exact run_zcap _ ts (init_zcap cfg cap data t0)

theorem buffer_spec_witness :
    ((WaitingZone.init "Waiting_A" 1).add_basket 5 (Basket.init 5 ["A"] 0)
      = ({ WaitingZone.init "Waiting_A" 1 with
             queue := (WaitingZone.init "Waiting_A" 1).queue ++ [5] },
         { Basket.init 5 ["A"] 0 with
             location := (WaitingZone.init "Waiting_A" 1).name }, true)) ∧
    ((WaitingZone.mk "Waiting_A" [7] 1).add_basket 5 (Basket.init 5 ["A"] 0)
      = (WaitingZone.mk "Waiting_A" [7] 1, Basket.init 5 ["A"] 0, false)) ∧
    ((WaitingZone.mk "Waiting_A" [7] 1).get_next_basket
      = (some 7, { WaitingZone.mk "Waiting_A" [7] 1 with queue := [] })) ∧
    (WaitingZone.mk "Waiting_A" [] 1).queue.length
      ≤ (WaitingZone.mk "Waiting_A" [] 1).capacity :=
  ⟨(buffer_spec.1 (WaitingZone.init "Waiting_A" 1) 5 (Basket.init 5 ["A"] 0)).1
      (by decide),
   (buffer_spec.1 (WaitingZone.mk "Waiting_A" [7] 1) 5 (Basket.init 5 ["A"] 0)).2
      (by decide),
   (buffer_spec.2.1 (WaitingZone.mk "Waiting_A" [7] 1)).2 7 [] rfl,
   buffer_spec.2.2 [("A", 2)] 1 [(1, ["A"]), (2, ["A"]), (3, ["A"])] 0 [0, 1, 2]
     ("Waiting_A", WaitingZone.mk "Waiting_A" [] 1) (by decide)⟩

/-- Event classifiers for the intra-tick ordering analysis. -/
def Event.isSignal : Event → Bool
  | .signal _ _ => true
  | _ => false

def Event.isMoveFromWaiting : Event → Bool
  | .moveFromWaiting _ _ => true
  | _ => false

def Event.isEntry : Event → Bool
  | .entry _ => true
  | _ => false

/-- The stations named by the `signal` events of a log fragment, in order. -/
def signalStations (l : List Event) : List String :=
  l.filterMap (fun e => match e with
    | .signal n _ => some n
    | _ => none)

/-- The routing decision appends only routing events: never a station release
signal, never a buffer-to-station move, never an entry event. -/
theorem detect_log (s : ConveyorSystem) (bid : ℕ) (now : Time) :
    ∃ d, (detect_and_manage_collision s bid now).1.log = s.log ++ d ∧
      ∀ e ∈ d, e.isSignal = false ∧ e.isMoveFromWaiting = false ∧
        e.isEntry = false := by
  rcases hb : lookA s.baskets bid with _ | b
  · rw [detect_eq_missing hb]
    exact ⟨[], by simp, by simp⟩
  rcases hns : b.next_station with _ | target
  · rw [detect_eq_finished hb hns]
    exact ⟨[Event.done bid], rfl, by simp [Event.isSignal, Event.isMoveFromWaiting, Event.isEntry]⟩
  rcases hstl : lookA s.stations target with _ | st
  · rw [detect_eq_err_station hb hns hstl]
    exact ⟨[Event.err bid target], rfl, by simp [Event.isSignal, Event.isMoveFromWaiting, Event.isEntry]⟩
  rcases hwzl : lookA s.waiting_zones ("Waiting_" ++ target) with _ | wz
  · rw [detect_eq_err_zone hb hns hstl hwzl]
    exact ⟨[Event.err bid target], rfl, by simp [Event.isSignal, Event.isMoveFromWaiting, Event.isEntry]⟩
  rcases hav : st.is_available with _ | _
  · rcases hfull : wz.is_full with _ | _
    · rw [detect_eq_waiting hb hns hstl hwzl hav hfull]
      exact ⟨[Event.wait bid target], rfl, by simp [Event.isSignal, Event.isMoveFromWaiting, Event.isEntry]⟩
    · rw [detect_eq_halted hb hns hstl hwzl hav hfull]
      exact ⟨[Event.halt bid target], rfl, by simp [Event.isSignal, Event.isMoveFromWaiting, Event.isEntry]⟩
  · rw [detect_eq_loaded hb hns hstl hwzl hav]
    exact ⟨[Event.move bid target], rfl, by simp [Event.isSignal, Event.isMoveFromWaiting, Event.isEntry]⟩

theorem entryPhase_log (s : ConveyorSystem) (now : Time) :
    ∃ l1, (entryPhase s now).log = s.log ++ l1 ∧
      ∀ e ∈ l1, e.isSignal = false ∧ e.isMoveFromWaiting = false := by
  rcases hq : s.entry_queue with _ | ⟨e, rest⟩
  · rw [entryPhase_eq_empty hq]
    exact ⟨[], by simp, by simp⟩
  rcases hh : s.is_entry_halted with _ | _
  case cons.true =>
    rw [entryPhase_eq_halted hq hh]
    exact ⟨[], by simp, by simp⟩
  case cons.false =>
  rw [entryPhase_eq_pop hq hh]
  obtain ⟨d, hd, hde⟩ := detect_log
    { s with entry_queue := rest, log := s.log ++ [Event.entry e] } e now
  refine ⟨Event.entry e :: d, ?_, ?_⟩
  · rw [hd]
    simp
  · intro ev hev
    rcases List.mem_cons.mp hev with hev | hev
    · subst hev
      exact ⟨rfl, rfl⟩
    · exact ⟨(hde ev hev).1, (hde ev hev).2.1⟩

theorem entryPhase_names (s : ConveyorSystem) (now : Time) :
    (entryPhase s now).station_names = s.station_names := by
  rcases hq : s.entry_queue with _ | ⟨e, rest⟩
  · rw [entryPhase_eq_empty hq]
  rcases hh : s.is_entry_halted with _ | _
  case cons.true =>
    rw [entryPhase_eq_halted hq hh]
  case cons.false =>
  rw [entryPhase_eq_pop hq hh]
  exact (detect_shape _ e now).1

theorem stationStep_log (now : Time) (acc : ConveyorSystem × List ℕ)
    (name : String) :
    ∃ l, (stationStep now acc name).1.log = acc.1.log ++ l ∧
      (∀ e ∈ l, e.isSignal = true ∨ e.isMoveFromWaiting = true) ∧
      List.Sublist (signalStations l) [name] := by
  obtain ⟨s, R⟩ := acc
  rcases hstl : lookA s.stations name with _ | station
  · rw [stationStep_eq_noStation hstl]
    exact ⟨[], by simp, by simp, by simp [signalStations]⟩
  rcases hocc : station.current_basket with _ | bid
  · rw [stationStep_eq_idle hstl hocc]
    exact ⟨[], by simp, by simp, by simp [signalStations]⟩
  rcases hb : lookA s.baskets bid with _ | b
  · rw [stationStep_eq_missingBasket hstl hocc hb]
    exact ⟨[], by simp, by simp, by simp [signalStations]⟩
  by_cases hge : station.finish_time ≤ now
  case neg =>
    rw [stationStep_eq_early hstl hocc hb (not_le.mp hge)]
    exact ⟨[], by simp, by simp, by simp [signalStations]⟩
  case pos =>
  have hsig : ∀ s2 : ConveyorSystem,
      s2.log = s.log ++ [Event.signal name bid] →
      ∃ l, s2.log = s.log ++ l ∧
        (∀ e ∈ l, e.isSignal = true ∨ e.isMoveFromWaiting = true) ∧
        List.Sublist (signalStations l) [name] := by
    intro s2 h2
    refine ⟨[Event.signal name bid], h2, ?_, ?_⟩
    · intro e he
      rcases List.mem_singleton.mp he with rfl
      exact Or.inl rfl
    · simp [signalStations]
  rcases hwzl : lookA s.waiting_zones ("Waiting_" ++ name) with _ | wz
  · rw [stationStep_eq_release_noZone hstl hocc hb hge hwzl]
    exact hsig _ rfl
  rcases hq : wz.queue with _ | ⟨nid, rest⟩
  · rw [stationStep_eq_release_emptyZone hstl hocc hb hge hwzl hq]
    exact hsig _ rfl
  have hsigmfw : ∀ (s2 : ConveyorSystem) (nid2 : ℕ),
      s2.log = (s.log ++ [Event.signal name bid])
        ++ [Event.moveFromWaiting nid2 name] →
      ∃ l, s2.log = s.log ++ l ∧
        (∀ e ∈ l, e.isSignal = true ∨ e.isMoveFromWaiting = true) ∧
        List.Sublist (signalStations l) [name] := by
    intro s2 nid2 h2
    refine ⟨[Event.signal name bid, Event.moveFromWaiting nid2 name], ?_, ?_, ?_⟩
    · rw [h2]
      simp
    · intro e he
      rcases List.mem_cons.mp he with rfl | he
      · exact Or.inl rfl
      · rcases List.mem_singleton.mp he with rfl
        exact Or.inr rfl
    · simp [signalStations]
  by_cases hne : nid = bid
  · subst hne
    rw [stationStep_eq_release_pull_self hstl hocc hb hge hwzl hq]
    exact hsigmfw _ nid rfl
  rcases hnb : lookA s.baskets nid with _ | nb
  · rw [stationStep_eq_release_missingNext hstl hocc hb hge hwzl hq hnb]
    exact hsig _ rfl
  · rw [stationStep_eq_release_pull hstl hocc hb hge hwzl hq hne hnb]
    exact hsigmfw _ nid rfl

theorem phase2_log (now : Time) (names : List String) :
    ∀ acc : ConveyorSystem × List ℕ,
    ∃ l2, (names.foldl (stationStep now) acc).1.log = acc.1.log ++ l2 ∧
      (∀ e ∈ l2, e.isSignal = true ∨ e.isMoveFromWaiting = true) ∧
      List.Sublist (signalStations l2) names := by
  induction names with
  | nil =>
    intro acc
    exact ⟨[], by simp, by simp, by simp [signalStations]⟩
  | cons name names ih =>
    intro acc
    rw [List.foldl_cons]
    obtain ⟨l, hl, hle, hls⟩ := stationStep_log now acc name
    obtain ⟨l2, hl2, hl2e, hl2s⟩ := ih (stationStep now acc name)
    refine ⟨l ++ l2, ?_, ?_, ?_⟩
    · rw [hl2, hl]
      simp
    · intro e he
      rcases List.mem_append.mp he with he | he
      · exact hle e he
      · exact hl2e e he
    · show List.Sublist (signalStations (l ++ l2)) (name :: names)
      have : signalStations (l ++ l2) = signalStations l ++ signalStations l2 :=
        List.filterMap_append l l2 _
      rw [this]
      have h1 : List.Sublist (signalStations l ++ signalStations l2)
          ([name] ++ names) := List.Sublist.append hls hl2s
      simpa using h1

theorem phase3_log (now : Time) (R : List ℕ) :
    ∀ s : ConveyorSystem,
    ∃ l3, (R.foldl (fun s bid => (detect_and_manage_collision s bid now).1) s).log
        = s.log ++ l3 ∧
      ∀ e ∈ l3, e.isSignal = false ∧ e.isMoveFromWaiting = false ∧
        e.isEntry = false := by
  induction R with
  | nil =>
    intro s
    exact ⟨[], by simp, by simp⟩
  | cons r R ih =>
    intro s
    rw [List.foldl_cons]
    obtain ⟨d, hd, hde⟩ := detect_log s r now
    obtain ⟨l3, hl3, hl3e⟩ := ih (detect_and_manage_collision s r now).1
    refine ⟨d ++ l3, ?_, ?_⟩
    · rw [hl3, hd]
      simp
    · intro e he
      rcases List.mem_append.mp he with he | he
      · exact hde e he
      · exact hl3e e he

/-- C4 (amended): within one tick the log grows by three consecutive blocks —
first the entry-admission block (the entry event and its routing outcome,
never a release signal or buffer-to-station move), then the station-service
block (only release signals and buffer-to-station moves, with the signalled
stations occurring as a subsequence of the fixed configured station order),
and finally the downstream-routing block for the baskets released this tick
(only routing events, no signals, no buffer moves, no entry events).  In
particular every item released from any station is routed only after *all*
stations' releases have been processed, not interleaved with them. -/
theorem tick_phase_order (s : ConveyorSystem) (now : Time) :
    ∃ l1 l2 l3,
      (simulate_tick s now).log = s.log ++ l1 ++ l2 ++ l3 ∧
      (∀ e ∈ l1, e.isSignal = false ∧ e.isMoveFromWaiting = false) ∧
      (∀ e ∈ l2, e.isSignal = true ∨ e.isMoveFromWaiting = true) ∧
      List.Sublist (signalStations l2) s.station_names ∧
      (∀ e ∈ l3, e.isSignal = false ∧ e.isMoveFromWaiting = false ∧
        e.isEntry = false) := by
  obtain ⟨l1, hl1, hl1e⟩ := entryPhase_log s now
  obtain ⟨l2, hl2, hl2e, hl2s⟩ :=
    phase2_log now (entryPhase s now).station_names (entryPhase s now, [])
  obtain ⟨l3, hl3, hl3e⟩ := phase3_log now
    ((entryPhase s now).station_names.foldl (stationStep now)
      (entryPhase s now, [])).2
    ((entryPhase s now).station_names.foldl (stationStep now)
      (entryPhase s now, [])).1
  have htick : simulate_tick s now
      = ((entryPhase s now).station_names.foldl (stationStep now)
          (entryPhase s now, [])).2.foldl
          (fun s bid => (detect_and_manage_collision s bid now).1)
          ((entryPhase s now).station_names.foldl (stationStep now)
            (entryPhase s now, [])).1 := rfl
  refine ⟨l1, l2, l3, ?_, hl1e, hl2e, entryPhase_names s now ▸ hl2s, hl3e⟩
  rw [htick, hl3, hl2, hl1]
